import Mathlib

set_option linter.unusedSectionVars false
set_option linter.unusedVariables false

/-!
Verification development for the GA-PSO web application engine
(source file src/script.js).

The JavaScript numbers are modelled as exact real numbers for the
benchmark-function catalog (which uses cos, sin, exp, sqrt and pi), and
the optimization engine itself is embedded generically over a linear
ordered field with a floor, so that it can be instantiated both at the
rationals (for executable concrete runs) and at the reals.

Randomness is modelled by explicit streams: a stream of uniform draws
standing for the successive results of Math.random(), and a stream of
standard gaussian draws standing for the successive results of
gaussianRandom(0, 1); every engine operation threads an explicit cursor
into these streams, consuming draws in exactly the order the source
code calls the corresponding primitives.
-/

/-! ## Benchmark function catalog (src/script.js lines 21-61) -/

/-- Sphere benchmark: x*x + y*y. -/
noncomputable def sphere (x y : ℝ) : ℝ := x * x + y * y

/-- Rastrigin benchmark with A = 10. -/
noncomputable def rastrigin (x y : ℝ) : ℝ :=
  let A : ℝ := 10
  2 * A + (x * x - A * Real.cos (2 * Real.pi * x))
        + (y * y - A * Real.cos (2 * Real.pi * y))

/-- Schwefel benchmark in two dimensions. -/
noncomputable def schwefel (x y : ℝ) : ℝ :=
  418.9829 * 2 - (x * Real.sin (Real.sqrt |x|) + y * Real.sin (Real.sqrt |y|))

/-- Rosenbrock benchmark: (1-x)^2 + 100*(y - x*x)^2. -/
noncomputable def rosenbrock (x y : ℝ) : ℝ :=
  (1 - x) ^ 2 + 100 * (y - x * x) ^ 2

/-- Ackley benchmark; Math.E is the real exponential of 1. -/
noncomputable def ackley (x y : ℝ) : ℝ :=
  -20 * Real.exp (-0.2 * Real.sqrt (0.5 * (x * x + y * y)))
    - Real.exp (0.5 * (Real.cos (2 * Real.pi * x) + Real.cos (2 * Real.pi * y)))
    + Real.exp 1 + 20

/-- One catalog entry: display name, objective, symmetric bounds, and the
recorded global minimum value of the objective. -/
structure Bench where
  name : String
  func : ℝ → ℝ → ℝ
  lo : ℝ
  hi : ℝ
  globalMin : ℝ

noncomputable def sphereBench : Bench := ⟨"Sphere", sphere, -5.12, 5.12, 0⟩

noncomputable def rastriginBench : Bench := ⟨"Rastrigin", rastrigin, -5.12, 5.12, 0⟩

noncomputable def schwefelBench : Bench := ⟨"Schwefel", schwefel, -500, 500, 0⟩

noncomputable def rosenbrockBench : Bench := ⟨"Rosenbrock", rosenbrock, -2, 2, 0⟩

noncomputable def ackleyBench : Bench := ⟨"Ackley", ackley, -32.768, 32.768, 0⟩

/-- The fixed 5-function catalog, in source order. -/
noncomputable def functionsCatalog : List Bench :=
  [sphereBench, rastriginBench, schwefelBench, rosenbrockBench, ackleyBench]

/-- Known optimum location used by the application (drawBackground,
src/script.js lines 152-157): the origin for every function except
Schwefel. -/
noncomputable def knownOptimum (b : Bench) : ℝ × ℝ :=
  if b.name = "Schwefel" then (420.9687, 420.9687) else (0, 0)

/-! ## Box-Muller gaussian (src/script.js lines 74-79) -/

/-- Box-Muller transform exactly as the source computes it: the first
uniform draw r1 from Math.random() is turned into u = 1 - r1, and the
returned value is sqrt(-2 log u) * cos(2 pi r2) * stdev + mean. -/
noncomputable def gaussianRandom (r1 r2 mean stdev : ℝ) : ℝ :=
  let u : ℝ := 1 - r1
  let v : ℝ := r2
  let z : ℝ := Real.sqrt (-2.0 * Real.log u) * Real.cos (2.0 * Real.pi * v)
  z * stdev + mean

open Classical in
/-- Finiteness-instrumented version of gaussianRandom: in JavaScript
float semantics the computation produces a non-finite value (plus or
minus infinity, or NaN) exactly when the argument of Math.log is not
positive, since Math.log 0 is negative infinity and that infinity
propagates through sqrt and the final multiplication. The guard returns
none precisely on those draws and otherwise the same real value as
gaussianRandom. -/
noncomputable def gaussianRandomChecked (r1 r2 mean stdev : ℝ) : Option ℝ :=
  let u : ℝ := 1 - r1
  if 0 < u then
    some (Real.sqrt (-2.0 * Real.log u) * Real.cos (2.0 * Real.pi * r2) * stdev + mean)
  else
    none

/-! ## Randomness plumbing

The engine consumes two explicit streams: unif models successive
Math.random() results, and gauss models successive standard gaussian
draws produced by gaussianRandom with mean 0 and stdev 1 (the source
call gaussianRandom(0, s) equals s times a standard draw). A cursor
records how many draws of each stream have been consumed. -/

structure Rng (α : Type) where
  unif : ℕ → α
  gauss : ℕ → α

structure Cur where
  u : ℕ
  g : ℕ
deriving DecidableEq

variable {α : Type} [LinearOrderedField α] [FloorRing α]

/-- One Math.random() call. -/
def mathRandom (r : Rng α) (c : Cur) : α × Cur := (r.unif c.u, ⟨c.u + 1, c.g⟩)

/-- The source utility random(min, max) = Math.random() * (max - min) + min. -/
def randomIn (r : Rng α) (lo hi : α) (c : Cur) : α × Cur :=
  let (t, c) := mathRandom r c
  (t * (hi - lo) + lo, c)

/-- One call of gaussianRandom(0, stdev), modelled as stdev times a
standard gaussian draw from the gauss stream. -/
def gaussianDraw (r : Rng α) (stdev : α) (c : Cur) : α × Cur :=
  (r.gauss c.g * stdev, ⟨c.u, c.g + 1⟩)

/-- Boundary clamp Math.max(lo, Math.min(hi, x)). -/
def clamp (lo hi x : α) : α := max lo (min hi x)

/-- The module-level pair bestGlobalFitness (a float initialized to
Infinity, modelled by WithTop) and bestGlobalPosition (initially null). -/
structure GBest (α : Type) where
  fit : WithTop α
  pos : Option (α × α)
deriving DecidableEq

/-- The repeated update pattern of both evaluate passes: if the fresh
fitness is strictly below the current best, replace fitness and
position, else keep the current best. -/
def updBest (b : GBest α) (fit : WithTop α) (p : α × α) : GBest α :=
  if fit < b.fit then ⟨fit, some p⟩ else b

/-! ## Genetic algorithm (class GA, src/script.js lines 247-347) -/

/-- One GA population member: position and last computed fitness
(Infinity, i.e. top, until first evaluated). -/
structure Ind (α : Type) where
  x : α
  y : α
  fitness : WithTop α
deriving DecidableEq

instance : Inhabited (Ind α) := ⟨⟨0, 0, ⊤⟩⟩

structure GAState (α : Type) where
  popSize : ℕ
  mutationRate : α
  crossoverRate : α
  elitism : Bool
  lo : α
  hi : α
  population : List (Ind α)
deriving DecidableEq

namespace GA

/-- The sort at the end of GA.evaluate: ascending by fitness. -/
def sortPop (pop : List (Ind α)) : List (Ind α) :=
  pop.mergeSort fun a b => decide (a.fitness ≤ b.fitness)

/-- GA.evaluate: recompute every fitness from the current objective,
fold the global-best update over the members in order, then sort the
population ascending by fitness. -/
def evaluate (f : α → α → α) (st : GAState α) (b : GBest α) : GAState α × GBest α :=
  let pop := st.population.map fun m => { m with fitness := (f m.x m.y : α) }
  let b := pop.foldl (fun b m => updBest b m.fitness (m.x, m.y)) b
  ({ st with population := sortPop pop }, b)

/-- One random member access population[Math.floor(Math.random() * popSize)]. -/
def pickRandom (r : Rng α) (st : GAState α) (c : Cur) : Ind α × Cur :=
  let (t, c) := mathRandom r c
  (st.population.getD (Int.toNat ⌊t * (st.popSize : α)⌋) default, c)

/-- Tournament selection with k = 3: three random picks, keeping the
strictly fitter member at each comparison. -/
def tournamentSelect (r : Rng α) (st : GAState α) (c : Cur) : Ind α × Cur :=
  let k1 := pickRandom r st c
  let k2 := pickRandom r st k1.2
  let b2 := if k2.1.fitness < k1.1.fitness then k2.1 else k1.1
  let k3 := pickRandom r st k2.2
  (if k3.1.fitness < b2.fitness then k3.1 else b2, k3.2)

/-- GA.mutate: independently for x and then y, with probability
mutationRate add a gaussian perturbation of stdev 0.05 * range and
clamp the coordinate into bounds. -/
def mutate (r : Rng α) (st : GAState α) (ind : Ind α) (c : Cur) : Ind α × Cur :=
  let range := st.hi - st.lo
  let t1 := mathRandom r c
  let s1 :=
    if t1.1 < st.mutationRate then
      let g1 := gaussianDraw r (range * (5 / 100)) t1.2
      ({ ind with x := clamp st.lo st.hi (ind.x + g1.1) }, g1.2)
    else (ind, t1.2)
  let t2 := mathRandom r s1.2
  if t2.1 < st.mutationRate then
    let g2 := gaussianDraw r (range * (5 / 100)) t2.2
    ({ s1.1 with y := clamp st.lo st.hi (s1.1.y + g2.1) }, g2.2)
  else (s1.1, t2.2)

/-- The crossover block of GA.step for one selected pair: children
start as copies of the parents; with probability crossoverRate a single
blend factor alpha is drawn and both children become complementary
blends of the parent coordinates. -/
def crossoverPair (r : Rng α) (st : GAState α) (p1 p2 : Ind α) (c : Cur) :
    (Ind α × Ind α) × Cur :=
  let t := mathRandom r c
  if t.1 < st.crossoverRate then
    let a := mathRandom r t.2
    (({ p1 with x := a.1 * p1.x + (1 - a.1) * p2.x, y := a.1 * p1.y + (1 - a.1) * p2.y },
      { p2 with x := a.1 * p2.x + (1 - a.1) * p1.x, y := a.1 * p2.y + (1 - a.1) * p1.y }),
     a.2)
  else ((p1, p2), t.2)

/-- One iteration of the while loop of GA.step: select two parents,
cross them over, mutate both children, append the first child and, if
room remains after that, the second. -/
def buildOne (r : Rng α) (st : GAState α) (acc : List (Ind α)) (c : Cur) :
    List (Ind α) × Cur :=
  let t1 := tournamentSelect r st c
  let t2 := tournamentSelect r st t1.2
  let ch := crossoverPair r st t1.1 t2.1 t2.2
  let m1 := mutate r st ch.1.1 ch.2
  let m2 := mutate r st ch.1.2 m1.2
  let acc2 := acc ++ [m1.1]
  (if acc2.length < st.popSize then acc2 ++ [m2.1] else acc2, m2.2)

/-- The while loop of GA.step: as long as the new generation is not
full, run one loop iteration. Fuel bounds the number of loop
iterations; popSize iterations always suffice since each one appends at
least one member. -/
def buildNewPop (r : Rng α) (st : GAState α) :
    ℕ → List (Ind α) → Cur → List (Ind α) × Cur
  | 0, acc, c => (acc, c)
  | fuel + 1, acc, c =>
    if acc.length < st.popSize then
      let s := buildOne r st acc c
      buildNewPop r st fuel s.1 s.2
    else (acc, c)

/-- GA.step: optionally keep a copy of the best (index 0) member, fill
the rest of the generation via the while loop, replace the population
and evaluate. -/
def step (r : Rng α) (f : α → α → α) (st : GAState α) (b : GBest α) (c : Cur) :
    GAState α × GBest α × Cur :=
  let start : List (Ind α) := if st.elitism then [st.population.headD default] else []
  let (newPop, c) := buildNewPop r st st.popSize start c
  let (st, b) := evaluate f { st with population := newPop } b
  (st, b, c)

/-- The initialization loop of the GA constructor: popSize members
uniformly random in bounds on both axes, fitness Infinity. -/
def initMembers (r : Rng α) (lo hi : α) : ℕ → Cur → List (Ind α) × Cur
  | 0, c => ([], c)
  | n + 1, c =>
    let ax := randomIn r lo hi c
    let ay := randomIn r lo hi ax.2
    let rest := initMembers r lo hi n ay.2
    (⟨ax.1, ay.1, ⊤⟩ :: rest.1, rest.2)

/-- The GA constructor: store the hyperparameters, sample the initial
population, then evaluate (which also updates the global best). It
performs no validation of any parameter. -/
def init (r : Rng α) (f : α → α → α) (popSize : ℕ) (mutationRate crossoverRate : α)
    (elitism : Bool) (lo hi : α) (b : GBest α) (c : Cur) : GAState α × GBest α × Cur :=
  let (pop, c) := initMembers r lo hi popSize c
  let st : GAState α := ⟨popSize, mutationRate, crossoverRate, elitism, lo, hi, pop⟩
  let (st, b) := evaluate f st b
  (st, b, c)

/-- A full GA run observed after n steps: constructor followed by n
calls of step, threading best and cursor. -/
def run (r : Rng α) (f : α → α → α) (popSize : ℕ) (mutationRate crossoverRate : α)
    (elitism : Bool) (lo hi : α) (b : GBest α) (c : Cur) (n : ℕ) :
    GAState α × GBest α × Cur :=
  (fun s : GAState α × GBest α × Cur => step r f s.1 s.2.1 s.2.2)^[n]
    (init r f popSize mutationRate crossoverRate elitism lo hi b c)

end GA

/-! ## Particle swarm (class PSO, src/script.js lines 349-432) -/

/-- One PSO particle: position, velocity, personal best, and last
computed fitness. -/
structure Particle (α : Type) where
  x : α
  y : α
  vx : α
  vy : α
  pbestX : α
  pbestY : α
  pbestFit : WithTop α
  fitness : WithTop α
deriving DecidableEq

instance : Inhabited (Particle α) := ⟨⟨0, 0, 0, 0, 0, 0, ⊤, ⊤⟩⟩

structure PSOState (α : Type) where
  swarmSize : ℕ
  w : α
  c1 : α
  c2 : α
  lo : α
  hi : α
  particles : List (Particle α)
deriving DecidableEq

namespace PSO

/-- The initialization loop of the PSO constructor: position uniform in
bounds, velocity components uniform in the interval from -1 to 1,
personal best set to the starting position with fitness Infinity. -/
def initParticles (r : Rng α) (lo hi : α) : ℕ → Cur → List (Particle α) × Cur
  | 0, c => ([], c)
  | n + 1, c =>
    let ax := randomIn r lo hi c
    let ay := randomIn r lo hi ax.2
    let avx := randomIn r (-1) 1 ay.2
    let avy := randomIn r (-1) 1 avx.2
    let rest := initParticles r lo hi n avy.2
    (⟨ax.1, ay.1, avx.1, avy.1, ax.1, ay.1, ⊤, ⊤⟩ :: rest.1, rest.2)

/-- The per-particle body of PSO.evaluate: recompute fitness and update
the personal best on strict improvement. -/
def evalParticle (f : α → α → α) (p : Particle α) : Particle α :=
  let fit : WithTop α := (f p.x p.y : α)
  let p := { p with fitness := fit }
  if fit < p.pbestFit then { p with pbestFit := fit, pbestX := p.x, pbestY := p.y }
  else p

/-- PSO.evaluate: per particle update fitness and personal best, and
fold the global-best update over the particles in order. -/
def evaluate (f : α → α → α) (st : PSOState α) (b : GBest α) : PSOState α × GBest α :=
  let ps := st.particles.map (evalParticle f)
  let b := ps.foldl (fun b p => updBest b p.fitness (p.x, p.y)) b
  ({ st with particles := ps }, b)

/-- The per-particle body of the PSO.step loop: two fresh uniform draws
r1 and r2, the canonical velocity update, position update by velocity
addition, and a hard clamp of the position only; the stored velocity is
the unclamped new velocity. -/
def moveParticle (r : Rng α) (st : PSOState α) (g : α × α) (p : Particle α) (c : Cur) :
    Particle α × Cur :=
  let (r1, c) := mathRandom r c
  let (r2, c) := mathRandom r c
  let vx := st.w * p.vx + st.c1 * r1 * (p.pbestX - p.x) + st.c2 * r2 * (g.1 - p.x)
  let vy := st.w * p.vy + st.c1 * r1 * (p.pbestY - p.y) + st.c2 * r2 * (g.2 - p.y)
  let x := p.x + vx
  let y := p.y + vy
  ({ p with x := clamp st.lo st.hi x, y := clamp st.lo st.hi y, vx := vx, vy := vy }, c)

/-- The forEach of PSO.step over all particles, threading the cursor in
order: each particle consumes exactly two uniform draws. -/
def moveAll (r : Rng α) (st : PSOState α) (g : α × α) :
    List (Particle α) → Cur → List (Particle α) × Cur
  | [], c => ([], c)
  | p :: ps, c =>
    let (p, c) := moveParticle r st g p c
    let (ps, c) := moveAll r st g ps c
    (p :: ps, c)

/-- PSO.step: move every particle reading the global best position
(null reads are modelled by a default, and are unreachable in runs
driven by the application since the constructor already evaluates),
then evaluate. -/
def step (r : Rng α) (f : α → α → α) (st : PSOState α) (b : GBest α) (c : Cur) :
    PSOState α × GBest α × Cur :=
  let g := b.pos.getD (0, 0)
  let (ps, c) := moveAll r st g st.particles c
  let (st, b) := evaluate f { st with particles := ps } b
  (st, b, c)

/-- The PSO constructor: sample the swarm, then evaluate. -/
def init (r : Rng α) (f : α → α → α) (swarmSize : ℕ) (w c1 c2 lo hi : α)
    (b : GBest α) (c : Cur) : PSOState α × GBest α × Cur :=
  let (ps, c) := initParticles r lo hi swarmSize c
  let st : PSOState α := ⟨swarmSize, w, c1, c2, lo, hi, ps⟩
  let (st, b) := evaluate f st b
  (st, b, c)

/-- A full PSO run observed after n steps. -/
def run (r : Rng α) (f : α → α → α) (swarmSize : ℕ) (w c1 c2 lo hi : α)
    (b : GBest α) (c : Cur) (n : ℕ) : PSOState α × GBest α × Cur :=
  (fun s : PSOState α × GBest α × Cur => step r f s.1 s.2.1 s.2.2)^[n]
    (init r f swarmSize w c1 c2 lo hi b c)

end PSO

/-! ## Application driver (src/script.js lines 434-691)

The JavaScript module-level mutable state is modelled as an explicit
machine record. Arrays live in a store: a history array is addressed by
its index in the store, so that the aliasing behavior of the source
(currentRunHistory is an array object, and logResult saves a reference
to that same object) is captured faithfully. Rebinding
currentRunHistory to a fresh array literal is modelled by appending a
new entry to the store and pointing curHist at it. -/

/-- The two optimizer classes behind the shared step/getPopulation
surface. -/
inductive AlgState (α : Type) where
  | ga : GAState α → AlgState α
  | pso : PSOState α → AlgState α
deriving DecidableEq

/-- Dispatch of currentAlgorithm.step(). -/
def AlgState.stepA (r : Rng α) (f : α → α → α) :
    AlgState α → GBest α → Cur → AlgState α × GBest α × Cur
  | .ga st, b, c =>
    let s := GA.step r f st b c
    (.ga s.1, s.2.1, s.2.2)
  | .pso st, b, c =>
    let s := PSO.step r f st b c
    (.pso s.1, s.2.1, s.2.2)

/-- Dispatch of getPopulation(), projected to the position pairs that
captureState copies. -/
def AlgState.positions : AlgState α → List (α × α)
  | .ga st => st.population.map fun m => (m.x, m.y)
  | .pso st => st.particles.map fun p => (p.x, p.y)

/-- The color field of the two classes. -/
def AlgState.color : AlgState α → String
  | .ga _ => "#e74c3c"
  | .pso _ => "#3498db"

/-- One archived entry of executionHistories: a reference to a history
array in the store, the algorithm color and the function name. -/
structure ArchEntry where
  histRef : ℕ
  color : String
  functionName : String
deriving DecidableEq

/-- The module-level mutable state of script.js. The store is the heap
of history arrays; curHist is the index of the array currently bound to
currentRunHistory; archives collects executionHistories entries in id
order (run id n is entry n - 1, ids start at 1). -/
structure Machine (α : Type) where
  isRunning : Bool
  isReplaying : Bool
  alg : Option (AlgState α)
  iteration : ℕ
  best : GBest α
  fname : String
  fobj : α → α → α
  lo : α
  hi : α
  curHist : ℕ
  store : List (List (List (α × α)))
  archives : List ArchEntry
  cur : Cur

/-- captureState: empty if no algorithm, else a value copy of every
member position. -/
def captureState (m : Machine α) : List (α × α) :=
  match m.alg with
  | none => []
  | some a => a.positions

/-- logResult: increment the execution counter and save the CURRENT
history array reference together with color and function name; the
history is stored by reference, not copied. -/
def logResult (m : Machine α) : Machine α :=
  { m with archives :=
      m.archives ++ [⟨m.curHist, (m.alg.map AlgState.color).getD "", m.fname⟩] }

/-- stopSimulation: when replaying, only clear the replay flag;
otherwise clear the running flag and, when asked to and at least one
iteration ran, archive the run. -/
def stopSimulation (shouldLog : Bool) (m : Machine α) : Machine α :=
  if m.isReplaying = true then { m with isReplaying := false }
  else
    let m := { m with isRunning := false }
    if shouldLog = true ∧ 0 < m.iteration then logResult m else m

/-- One body of the animation loop: when running, step the algorithm,
advance the iteration counter, push a snapshot onto the current history
array, and auto-stop with logging when the iteration limit (if
positive) is reached. A missing algorithm throws in the source before
any mutation; that is modelled as a no-op. -/
def loop (r : Rng α) (maxIter : ℕ) (m : Machine α) : Machine α :=
  if m.isRunning = false then m
  else
    match m.alg with
    | none => m
    | some a =>
      let s := a.stepA r m.fobj m.best m.cur
      let m := { m with alg := some s.1, best := s.2.1, cur := s.2.2,
                        iteration := m.iteration + 1 }
      let m :=
        { m with
          store := m.store.set m.curHist (m.store.getD m.curHist [] ++ [captureState m]) }
      if 0 < maxIter ∧ maxIter ≤ m.iteration then stopSimulation true m else m

/-- The loop body iterated n times (the source schedules it once per
animation tick). -/
def loopN (r : Rng α) (maxIter : ℕ) (n : ℕ) (m : Machine α) : Machine α :=
  (loop r maxIter)^[n] m

/-- resetSimulation: stop without logging, drop the algorithm, reset
iteration and global best, and rebind currentRunHistory to a fresh
empty array. -/
def resetSimulation (m : Machine α) : Machine α :=
  let m := stopSimulation false m
  { m with alg := none, iteration := 0, best := ⟨⊤, none⟩,
           curHist := m.store.length, store := m.store ++ [[]] }

/-- The configuration read from the parameter form. -/
inductive AlgCfg (α : Type) where
  | ga (popSize : ℕ) (mutationRate crossoverRate : α) (elitism : Bool)
  | pso (swarmSize : ℕ) (w c1 c2 : α)

/-- startSimulation: refuse while running or replaying; if no algorithm
exists, reset, construct the optimizer from the configuration (no
parameter validation anywhere), and bind currentRunHistory to a fresh
one-snapshot array; in every case raise the running flag and run the
loop body once. -/
def startSimulation (r : Rng α) (cfg : AlgCfg α) (maxIter : ℕ) (m : Machine α) :
    Machine α :=
  if m.isRunning = true ∨ m.isReplaying = true then m
  else
    let m :=
      match m.alg with
      | some _ => m
      | none =>
        let m := resetSimulation m
        let m :=
          match cfg with
          | .ga p mr cr el =>
            let s := GA.init r m.fobj p mr cr el m.lo m.hi m.best m.cur
            { m with alg := some (.ga s.1), best := s.2.1, cur := s.2.2 }
          | .pso n w c1 c2 =>
            let s := PSO.init r m.fobj n w c1 c2 m.lo m.hi m.best m.cur
            { m with alg := some (.pso s.1), best := s.2.1, cur := s.2.2 }
        { m with curHist := m.store.length, store := m.store ++ [[captureState m]] }
    loop r maxIter { m with isRunning := true }

/-- The replay loop: while the replay flag is up and snapshots remain,
emit the snapshot at the current index and advance the index; at the
end of the history lower the replay flag. Fuel bounds recursion; one
more than the history length always suffices. The emitted snapshots are
returned in order. -/
def replayGo (hist : List (List (α × α))) :
    ℕ → Machine α → Machine α × List (List (α × α))
  | 0, m => (m, [])
  | fuel + 1, m =>
    if m.isReplaying = false then (m, [])
    else if m.iteration < hist.length then
      let snap := hist.getD m.iteration []
      let m := { m with iteration := m.iteration + 1 }
      let res := replayGo hist fuel m
      (res.1, snap :: res.2)
    else
      ({ m with isReplaying := false }, [])

/-- startReplay: refuse while running or replaying; look the id up in
executionHistories and do nothing when absent; otherwise raise the
replay flag, reset the iteration index, switch the current function by
name through the catalog when it differs from the recorded one, and
play back the stored history array. -/
def startReplay (cat : List (String × (α → α → α) × α × α)) (id : ℕ) (m : Machine α) :
    Machine α × List (List (α × α)) :=
  if m.isRunning = true ∨ m.isReplaying = true then (m, [])
  else
    match m.archives.get? (id - 1) with
    | none => (m, [])
    | some e =>
      let m := { m with isReplaying := true, iteration := 0 }
      let m :=
        if m.fname ≠ e.functionName then
          match cat.find? (fun kv => kv.1 == e.functionName) with
          | some kv =>
            { m with fname := kv.1, fobj := kv.2.1, lo := kv.2.2.1, hi := kv.2.2.2 }
          | none => m
        else m
      replayGo (m.store.getD e.histRef []) ((m.store.getD e.histRef []).length + 1) m

/-- The page-load state: nothing runs, no algorithm, empty first
history array bound, no archives. -/
def initMachine (fname : String) (f : α → α → α) (lo hi : α) : Machine α :=
  ⟨false, false, none, 0, ⟨⊤, none⟩, fname, f, lo, hi, 0, [[]], [], ⟨0, 0⟩⟩

/-- The history array an archived id refers to (empty when the id is
unknown). -/
def archHist (m : Machine α) (id : ℕ) : List (List (α × α)) :=
  match m.archives.get? (id - 1) with
  | none => []
  | some e => m.store.getD e.histRef []

/-! ## Derived observables and claim-level predicates -/

/-- The two engine entry points a driver may call on a live optimizer
during one run. -/
inductive EngineOp where
  | evalOp
  | advanceOp

/-- Apply one operation to a GA run triple. -/
def GA.applyOp (r : Rng α) (f : α → α → α) (op : EngineOp)
    (s : GAState α × GBest α × Cur) : GAState α × GBest α × Cur :=
  match op with
  | .evalOp =>
    let e := GA.evaluate f s.1 s.2.1
    (e.1, e.2, s.2.2)
  | .advanceOp => GA.step r f s.1 s.2.1 s.2.2

/-- Apply a sequence of operations to a GA run triple. -/
def GA.applyOps (r : Rng α) (f : α → α → α) (ops : List EngineOp)
    (s : GAState α × GBest α × Cur) : GAState α × GBest α × Cur :=
  ops.foldl (fun s op => GA.applyOp r f op s) s

/-- Apply one operation to a PSO run triple. -/
def PSO.applyOp (r : Rng α) (f : α → α → α) (op : EngineOp)
    (s : PSOState α × GBest α × Cur) : PSOState α × GBest α × Cur :=
  match op with
  | .evalOp =>
    let e := PSO.evaluate f s.1 s.2.1
    (e.1, e.2, s.2.2)
  | .advanceOp => PSO.step r f s.1 s.2.1 s.2.2

/-- Apply a sequence of operations to a PSO run triple. -/
def PSO.applyOps (r : Rng α) (f : α → α → α) (ops : List EngineOp)
    (s : PSOState α × GBest α × Cur) : PSOState α × GBest α × Cur :=
  ops.foldl (fun s op => PSO.applyOp r f op s) s

/-- Minimum fitness value present in a population (top for the empty
population). -/
def minFit (pop : List (Ind α)) : WithTop α :=
  pop.foldr (fun m acc => min m.fitness acc) ⊤

/-- Both coordinates of one GA member lie within the bounds. -/
def IndInB (lo hi : α) (m : Ind α) : Prop :=
  lo ≤ m.x ∧ m.x ≤ hi ∧ lo ≤ m.y ∧ m.y ≤ hi

/-- Both coordinates of every GA member lie within the bounds. -/
def GAInBounds (lo hi : α) (st : GAState α) : Prop :=
  ∀ m ∈ st.population, IndInB lo hi m

/-- Both coordinates of one PSO particle lie within the bounds. -/
def PInB (lo hi : α) (p : Particle α) : Prop :=
  lo ≤ p.x ∧ p.x ≤ hi ∧ lo ≤ p.y ∧ p.y ≤ hi

/-- Both coordinates of every PSO particle lie within the bounds. -/
def PSOInBounds (lo hi : α) (st : PSOState α) : Prop :=
  ∀ p ∈ st.particles, PInB lo hi p

/-- Every stored fitness is the objective value at the stored position. -/
def GAEvaluated (f : α → α → α) (st : GAState α) : Prop :=
  ∀ m ∈ st.population, m.fitness = (f m.x m.y : WithTop α)

/-- Population sorted ascending by fitness. -/
def GASorted (st : GAState α) : Prop :=
  List.Sorted (fun a b : Ind α => a.fitness ≤ b.fitness) st.population

instance (lo hi : α) (m : Ind α) : Decidable (IndInB lo hi m) := by
  unfold IndInB; infer_instance

instance (lo hi : α) (st : GAState α) : Decidable (GAInBounds lo hi st) := by
  unfold GAInBounds; infer_instance

instance (lo hi : α) (p : Particle α) : Decidable (PInB lo hi p) := by
  unfold PInB; infer_instance

instance (lo hi : α) (st : PSOState α) : Decidable (PSOInBounds lo hi st) := by
  unfold PSOInBounds; infer_instance

instance (f : α → α → α) (st : GAState α) : Decidable (GAEvaluated f st) := by
  unfold GAEvaluated; infer_instance

instance (st : GAState α) : Decidable (GASorted st) := by
  unfold GASorted List.Sorted; infer_instance

/-! ## Concrete scenario instances over the rationals -/

/-- Degenerate stream pair: every uniform draw is 0, every gaussian
draw is 0. -/
def qRng : Rng ℚ := ⟨fun _ => 0, fun _ => 0⟩

/-- The sphere objective restricted to rational inputs. -/
def sphereQ (x y : ℚ) : ℚ := x * x + y * y

/-- Page-load machine on the sphere function with its source bounds. -/
def qMachine : Machine ℚ := initMachine "Sphere" sphereQ (-512 / 100) (512 / 100)

/-- GA configuration: population 2, no mutation, no crossover, elitism. -/
def gaCfgQ : AlgCfg ℚ := .ga 2 0 0 true

/-- After pressing Run on the fresh page: constructor, initial
snapshot, and the first loop body (one step and one pushed snapshot). -/
def mC3a : Machine ℚ := startSimulation qRng gaCfgQ 0 qMachine

/-- After pressing Stop: the run is archived as id 1. -/
def mC3b : Machine ℚ := stopSimulation true mC3a

/-- After pressing Run again on the stopped run: the loop body appends
a further snapshot to the same history array the archive references. -/
def mC3c : Machine ℚ := startSimulation qRng gaCfgQ 0 mC3b

/-- One-particle zero-coefficient swarm at position (1, 1): the
zero-force stasis scenario of the specification. -/
def pstC7 : PSOState ℚ :=
  ⟨1, 0, 0, 0, -1, 1, [⟨1, 1, 0, 0, 1, 1, ((2 : ℚ) : WithTop ℚ), ((2 : ℚ) : WithTop ℚ)⟩]⟩

/-- A defined global best at (1, 1) with fitness 2. -/
def pbC7 : GBest ℚ := ⟨((2 : ℚ) : WithTop ℚ), some (1, 1)⟩

/-! ## Decomposition lemmas -/

theorem GA.evaluate_eq (f : α → α → α) (st : GAState α) (b : GBest α) :
    GA.evaluate f st b =
      ({ st with population :=
          GA.sortPop (st.population.map fun m => { m with fitness := (f m.x m.y : α) }) },
       (st.population.map fun m => { m with fitness := (f m.x m.y : α) }).foldl
         (fun b m => updBest b m.fitness (m.x, m.y)) b) := rfl

theorem GA.step_eq (r : Rng α) (f : α → α → α) (st : GAState α) (b : GBest α) (c : Cur) :
    GA.step r f st b c =
      ((GA.evaluate f { st with population := (GA.buildNewPop r st st.popSize
          (if st.elitism then [st.population.headD default] else []) c).1 } b).1,
       (GA.evaluate f { st with population := (GA.buildNewPop r st st.popSize
          (if st.elitism then [st.population.headD default] else []) c).1 } b).2,
       (GA.buildNewPop r st st.popSize
          (if st.elitism then [st.population.headD default] else []) c).2) := rfl

theorem GA.init_eq (r : Rng α) (f : α → α → α) (popSize : ℕ) (mr cr : α) (el : Bool)
    (lo hi : α) (b : GBest α) (c : Cur) :
    GA.init r f popSize mr cr el lo hi b c =
      ((GA.evaluate f ⟨popSize, mr, cr, el, lo, hi, (GA.initMembers r lo hi popSize c).1⟩ b).1,
       (GA.evaluate f ⟨popSize, mr, cr, el, lo, hi, (GA.initMembers r lo hi popSize c).1⟩ b).2,
       (GA.initMembers r lo hi popSize c).2) := rfl

theorem PSO.evaluateP_eq (f : α → α → α) (st : PSOState α) (b : GBest α) :
    PSO.evaluate f st b =
      ({ st with particles := st.particles.map (PSO.evalParticle f) },
       (st.particles.map (PSO.evalParticle f)).foldl
         (fun b p => updBest b p.fitness (p.x, p.y)) b) := rfl

theorem PSO.stepP_eq (r : Rng α) (f : α → α → α) (st : PSOState α) (b : GBest α) (c : Cur) :
    PSO.step r f st b c =
      ((PSO.evaluate f { st with particles :=
          (PSO.moveAll r st (b.pos.getD (0, 0)) st.particles c).1 } b).1,
       (PSO.evaluate f { st with particles :=
          (PSO.moveAll r st (b.pos.getD (0, 0)) st.particles c).1 } b).2,
       (PSO.moveAll r st (b.pos.getD (0, 0)) st.particles c).2) := rfl

theorem PSO.initP_eq (r : Rng α) (f : α → α → α) (swarmSize : ℕ) (w c1 c2 lo hi : α)
    (b : GBest α) (c : Cur) :
    PSO.init r f swarmSize w c1 c2 lo hi b c =
      ((PSO.evaluate f ⟨swarmSize, w, c1, c2, lo, hi,
          (PSO.initParticles r lo hi swarmSize c).1⟩ b).1,
       (PSO.evaluate f ⟨swarmSize, w, c1, c2, lo, hi,
          (PSO.initParticles r lo hi swarmSize c).1⟩ b).2,
       (PSO.initParticles r lo hi swarmSize c).2) := rfl

/-! ## Claim C1: catalog values at the claimed optima -/

theorem sphere_at_origin : sphere 0 0 = 0 := by norm_num [sphere]

theorem rastrigin_at_origin : rastrigin 0 0 = 0 := by
  norm_num [rastrigin, Real.cos_zero]

theorem ackley_at_origin : ackley 0 0 = 0 := by
  norm_num [ackley, Real.sqrt_zero, Real.exp_zero, Real.cos_zero]

theorem rosenbrock_at_origin : rosenbrock 0 0 = 1 := by norm_num [rosenbrock]

theorem rosenbrock_at_one_one : rosenbrock 1 1 = 0 := by norm_num [rosenbrock]

/-- Claim C1 is false as stated: the Rosenbrock entry of the catalog,
whose known optimum location per the application is the origin,
evaluates to 1 there, not to the global-minimum value 0 (its actual
minimum 0 sits at (1, 1)). -/
theorem C1_rosenbrock_counterexample :
    rosenbrockBench ∈ functionsCatalog ∧
    knownOptimum rosenbrockBench = (0, 0) ∧
    rosenbrockBench.func 0 0 = 1 ∧
    rosenbrockBench.func 0 0 ≠ 0 := by
  refine ⟨by simp [functionsCatalog], ?_, ?_, ?_⟩
  · simp [knownOptimum, rosenbrockBench]
  · exact rosenbrock_at_origin
  · rw [show rosenbrockBench.func = rosenbrock from rfl, rosenbrock_at_origin]
    norm_num

/-- Claim C1, amended: Sphere, Rastrigin and Ackley evaluate to the
global-minimum value 0 at their known optimum location (0, 0);
Rosenbrock evaluates to 1 at its claimed optimum location (0, 0), its
actual minimum value 0 being attained at (1, 1); the Schwefel optimum
location is recorded as (420.9687, 420.9687), at which the exact value
of the closed form is only approximately 0. -/
theorem C1_catalog_optima_amended :
    sphereBench.func 0 0 = 0 ∧ knownOptimum sphereBench = (0, 0) ∧
    rastriginBench.func 0 0 = 0 ∧ knownOptimum rastriginBench = (0, 0) ∧
    ackleyBench.func 0 0 = 0 ∧ knownOptimum ackleyBench = (0, 0) ∧
    rosenbrockBench.func 0 0 = 1 ∧ rosenbrockBench.func 1 1 = 0 ∧
    knownOptimum schwefelBench = (420.9687, 420.9687) := by
  refine ⟨sphere_at_origin, ?_, rastrigin_at_origin, ?_, ackley_at_origin, ?_,
    rosenbrock_at_origin, rosenbrock_at_one_one, ?_⟩
  · simp [knownOptimum, sphereBench]
  · simp [knownOptimum, rastriginBench]
  · simp [knownOptimum, ackleyBench]
  · simp [knownOptimum, schwefelBench]

/-! ## Claim C10: the Box-Muller transform never leaves the reals -/

/-- Claim C10: for any uniform draw r1 in the interval from 0 inclusive
to 1 exclusive, the argument 1 - r1 given to the logarithm is positive,
so the checked Box-Muller computation stays finite and agrees with the
ideal real-valued transform. -/
theorem C10_gaussian_finite (r1 r2 mean stdev : ℝ) (h0 : 0 ≤ r1) (h1 : r1 < 1) :
    0 < 1 - r1 ∧
    gaussianRandomChecked r1 r2 mean stdev = some (gaussianRandom r1 r2 mean stdev) := by
  have hu : 0 < 1 - r1 := by linarith
  exact ⟨hu, by simp [gaussianRandomChecked, gaussianRandom, h1]⟩

theorem C10_gaussian_finite_witness :
    0 < 1 - (1 /2 : ℝ) ∧
    gaussianRandomChecked (1 / 2) 0 0 1 = some (gaussianRandom (1 / 2) 0 0 1) :=
  C10_gaussian_finite (1 / 2) 0 0 1 (by norm_num) (by norm_num)

/-! ## Length and sortedness of the GA population -/

theorem GA.initMembers_length (r : Rng α) (lo hi : α) :
    ∀ (n : ℕ) (c : Cur), ((GA.initMembers r lo hi n c).1).length = n := by
  intro n
  induction n with
  | zero => intro c; rfl
  | succ k ih =>
    intro c
    simp only [GA.initMembers, List.length_cons]
    rw [ih]

theorem GA.sortPop_length (pop : List (Ind α)) :
    (GA.sortPop pop).length = pop.length :=
  List.length_mergeSort pop

theorem GA.mem_sortPop {a : Ind α} {pop : List (Ind α)} :
    a ∈ GA.sortPop pop ↔ a ∈ pop :=
  List.mem_mergeSort

theorem GA.sortPop_sorted (pop : List (Ind α)) :
    List.Sorted (fun a b : Ind α => a.fitness ≤ b.fitness) (GA.sortPop pop) := by
  have h := @List.sorted_mergeSort (Ind α)
      (fun a b : Ind α => decide (a.fitness ≤ b.fitness))
      (fun a b c hab hbc => by
        simp only [decide_eq_true_eq] at hab hbc ⊢
        exact le_trans hab hbc)
      (fun a b => by simpa using le_total a.fitness b.fitness)
      pop
  exact h.imp fun hab => by simpa using hab

theorem GA.evaluate_population_length (f : α → α → α) (st : GAState α) (b : GBest α) :
    ((GA.evaluate f st b).1).population.length = st.population.length := by
  rw [GA.evaluate_eq]
  simp [GA.sortPop_length]

/-! ## Claim C2: constructor performs no validation -/

unseal List.mergeSort List.merge in
/-- Claim C2 is false as stated: constructing a GA with populationSize
equal to 1 does not fail; it yields a usable optimizer whose population
has exactly one member, and stepping that optimizer keeps a population
of one member. No InvalidConfiguration signal exists in the code. -/
theorem C2_popsize_one_constructs :
    (((GA.init qRng sphereQ 1 (1 / 2) (1 / 2) true (-512 / 100) (512 / 100)
        ⟨⊤, none⟩ ⟨0, 0⟩).1).population.length = 1) ∧
    ((let s := GA.init qRng sphereQ 1 (1 / 2) (1 / 2) true (-512 / 100) (512 / 100)
        ⟨⊤, none⟩ ⟨0, 0⟩
      (GA.step qRng sphereQ s.1 s.2.1 s.2.2).1.population.length) = 1) := by
  decide

/-- Claim C2, amended: the GA constructor validates nothing; for every
populationSize (including values below 2) and any rates, construction
succeeds and produces a population of exactly populationSize members
with the populationSize hyperparameter stored unchanged. -/
theorem C2_constructor_no_validation (r : Rng α) (f : α → α → α) (popSize : ℕ)
    (mr cr : α) (el : Bool) (lo hi : α) (b : GBest α) (c : Cur) :
    ((GA.init r f popSize mr cr el lo hi b c).1).population.length = popSize ∧
    ((GA.init r f popSize mr cr el lo hi b c).1).popSize = popSize := by
  constructor
  · rw [GA.init_eq]
    rw [GA.evaluate_population_length]
    exact GA.initMembers_length r lo hi popSize c
  · rw [GA.init_eq, GA.evaluate_eq]

/-! ## Claim C4: run-global best is monotone, updated on strict improvement -/

theorem updBest_fit_le (b : GBest α) (fit : WithTop α) (p : α × α) :
    (updBest b fit p).fit ≤ b.fit := by
  unfold updBest
  split
  · exact le_of_lt (by assumption)
  · exact le_refl _

theorem foldl_updBest_le {β : Type} (g : β → WithTop α) (q : β → α × α) :
    ∀ (l : List β) (b : GBest α),
      (l.foldl (fun b m => updBest b (g m) (q m)) b).fit ≤ b.fit := by
  intro l
  induction l with
  | nil => intro b; exact le_refl _
  | cons m t ih =>
    intro b
    exact le_trans (ih (updBest b (g m) (q m))) (updBest_fit_le b (g m) (q m))

theorem GA.evaluate_fit_le (f : α → α → α) (st : GAState α) (b : GBest α) :
    ((GA.evaluate f st b).2).fit ≤ b.fit := by
  rw [GA.evaluate_eq]
  exact foldl_updBest_le (fun m : Ind α => m.fitness) (fun m => (m.x, m.y)) _ b

theorem GA.step_fit_le (r : Rng α) (f : α → α → α) (st : GAState α) (b : GBest α) (c : Cur) :
    ((GA.step r f st b c).2.1).fit ≤ b.fit := by
  rw [GA.step_eq]
  exact GA.evaluate_fit_le f _ b

theorem PSO.evaluateP_fit_le (f : α → α → α) (st : PSOState α) (b : GBest α) :
    ((PSO.evaluate f st b).2).fit ≤ b.fit := by
  rw [PSO.evaluateP_eq]
  exact foldl_updBest_le (fun p : Particle α => p.fitness) (fun p => (p.x, p.y)) _ b

theorem PSO.stepP_fit_le (r : Rng α) (f : α → α → α) (st : PSOState α) (b : GBest α) (c : Cur) :
    ((PSO.step r f st b c).2.1).fit ≤ b.fit := by
  rw [PSO.stepP_eq]
  exact PSO.evaluateP_fit_le f _ b

theorem GA.applyOp_fit_le (r : Rng α) (f : α → α → α) (op : EngineOp)
    (s : GAState α × GBest α × Cur) :
    ((GA.applyOp r f op s).2.1).fit ≤ s.2.1.fit := by
  cases op
  · exact GA.evaluate_fit_le f s.1 s.2.1
  · exact GA.step_fit_le r f s.1 s.2.1 s.2.2

theorem GA.applyOps_fit_le (r : Rng α) (f : α → α → α) (ops : List EngineOp) :
    ∀ s : GAState α × GBest α × Cur, ((GA.applyOps r f ops s).2.1).fit ≤ s.2.1.fit := by
  induction ops with
  | nil => intro s; exact le_refl _
  | cons op t ih =>
    intro s
    exact le_trans (ih (GA.applyOp r f op s)) (GA.applyOp_fit_le r f op s)

theorem PSO.applyOpP_fit_le (r : Rng α) (f : α → α → α) (op : EngineOp)
    (s : PSOState α × GBest α × Cur) :
    ((PSO.applyOp r f op s).2.1).fit ≤ s.2.1.fit := by
  cases op
  · exact PSO.evaluateP_fit_le f s.1 s.2.1
  · exact PSO.stepP_fit_le r f s.1 s.2.1 s.2.2

theorem PSO.applyOpsP_fit_le (r : Rng α) (f : α → α → α) (ops : List EngineOp) :
    ∀ s : PSOState α × GBest α × Cur, ((PSO.applyOps r f ops s).2.1).fit ≤ s.2.1.fit := by
  induction ops with
  | nil => intro s; exact le_refl _
  | cons op t ih =>
    intro s
    exact le_trans (ih (PSO.applyOp r f op s)) (PSO.applyOpP_fit_le r f op s)

/-- Claim C4: across any sequence of evaluate and advance calls, for
both algorithms, the run-global best fitness never increases; the best
pair starts as Infinity with undefined position on page load and after
every reset; and a single update replaces the pair exactly when the
fresh fitness is strictly below the current best, keeping it unchanged
otherwise. -/
theorem C4_best_monotone (r : Rng α) (f : α → α → α) (ops : List EngineOp)
    (sg : GAState α × GBest α × Cur) (sp : PSOState α × GBest α × Cur)
    (b : GBest α) (fit : WithTop α) (p : α × α) (m : Machine α)
    (s : String) (g : α → α → α) (lo hi : α) :
    ((GA.applyOps r f ops sg).2.1).fit ≤ sg.2.1.fit ∧
    ((PSO.applyOps r f ops sp).2.1).fit ≤ sp.2.1.fit ∧
    ((updBest b fit p = ⟨fit, some p⟩ ∧ fit < b.fit) ∨
      (updBest b fit p = b ∧ b.fit ≤ fit)) ∧
    (initMachine s g lo hi : Machine α).best = ⟨⊤, none⟩ ∧
    (resetSimulation m).best = ⟨⊤, none⟩ := by
  refine ⟨GA.applyOps_fit_le r f ops sg, PSO.applyOpsP_fit_le r f ops sp, ?_, rfl, rfl⟩
  by_cases h : fit < b.fit
  · exact Or.inl ⟨by simp [updBest, h], h⟩
  · exact Or.inr ⟨by simp [updBest, h], not_lt.mp h⟩

/-! ## Claim C7: the PSO velocity and position update -/

theorem PSO.moveAll_length (r : Rng α) (st : PSOState α) (g : α × α) :
    ∀ (ps : List (Particle α)) (c : Cur), ((PSO.moveAll r st g ps c).1).length = ps.length := by
  intro ps
  induction ps with
  | nil => intro c; rfl
  | cons p t ih =>
    intro c
    simp only [PSO.moveAll, List.length_cons]
    rw [ih]

theorem PSO.moveParticle_cursor (r : Rng α) (st : PSOState α) (g : α × α)
    (p : Particle α) (c : Cur) :
    (PSO.moveParticle r st g p c).2 = ⟨c.u + 2, c.g⟩ := rfl

theorem PSO.moveAll_cursor (r : Rng α) (st : PSOState α) (g : α × α) :
    ∀ (ps : List (Particle α)) (c : Cur),
      (PSO.moveAll r st g ps c).2 = ⟨c.u + 2 * ps.length, c.g⟩ := by
  intro ps
  induction ps with
  | nil => intro c; simp [PSO.moveAll]
  | cons p t ih =>
    intro c
    simp only [PSO.moveAll]
    rw [PSO.moveParticle_cursor, ih]
    simp only [List.length_cons, Cur.mk.injEq, and_true]
    omega

theorem PSO.moveAll_get (r : Rng α) (st : PSOState α) (g : α × α) :
    ∀ (ps : List (Particle α)) (c : Cur) (i : ℕ) (h : i < ps.length)
      (h2 : i < ((PSO.moveAll r st g ps c).1).length),
      ((PSO.moveAll r st g ps c).1).get ⟨i, h2⟩ =
        (PSO.moveParticle r st g (ps.get ⟨i, h⟩) ⟨c.u + 2 * i, c.g⟩).1 := by
  intro ps
  induction ps with
  | nil => intro c i h h2; exact absurd h (by simp)
  | cons p t ih =>
    intro c i h h2
    match i with
    | 0 =>
      simp only [PSO.moveAll, List.get]
      congr 1
    | Nat.succ j =>
      have hj : j < t.length := by simpa using h
      have hj2 : j < ((PSO.moveAll r st g t ⟨c.u + 2, c.g⟩).1).length := by
        rw [PSO.moveAll_length]; exact hj
      have heq := ih ⟨c.u + 2, c.g⟩ j hj hj2
      simp only [PSO.moveAll, List.get]
      have harith : c.u + 2 * j.succ = c.u + 2 + 2 * j := by omega
      rw [show (⟨c.u + 2 * j.succ, c.g⟩ : Cur) = ⟨c.u + 2 + 2 * j, c.g⟩ from by rw [harith]]
      exact heq

theorem PSO.moveAll_getD (r : Rng α) (st : PSOState α) (g : α × α)
    (ps : List (Particle α)) (c : Cur) (i : ℕ) (h : i < ps.length) :
    ((PSO.moveAll r st g ps c).1).getD i default =
      (PSO.moveParticle r st g (ps.getD i default) ⟨c.u + 2 * i, c.g⟩).1 := by
  have h2 : i < ((PSO.moveAll r st g ps c).1).length := by
    rw [PSO.moveAll_length]; exact h
  rw [List.getD_eq_getElem _ _ h2, List.getD_eq_getElem _ _ h]
  have hg := PSO.moveAll_get r st g ps c i h h2
  simpa [List.get_eq_getElem] using hg

/-- Claim C7: each particle is processed independently with two fresh
uniform draws per particle per step (particle i reads stream positions
u + 2i and u + 2i + 1), the new velocity is the inertia-cognitive-social
formula, the new position is old position plus new velocity, the
position is hard-clamped into bounds afterwards, and the stored
velocity is the unclamped formula value even when the position got
pinned to a boundary; finally the whole step consumes exactly two
uniform draws per particle and evaluates the moved swarm. -/
theorem C7_pso_step_update (r : Rng α) (f : α → α → α) (st : PSOState α) (b : GBest α)
    (c : Cur) (gx gy : α) (hb : b.pos = some (gx, gy)) (hlohi : st.lo ≤ st.hi)
    (i : ℕ) (h : i < st.particles.length) :
    (let p := st.particles.getD i default
     let r1 := r.unif (c.u + 2 * i)
     let r2 := r.unif (c.u + 2 * i + 1)
     let vx := st.w * p.vx + st.c1 * r1 * (p.pbestX - p.x) + st.c2 * r2 * (gx - p.x)
     let vy := st.w * p.vy + st.c1 * r1 * (p.pbestY - p.y) + st.c2 * r2 * (gy - p.y)
     let q := ((PSO.moveAll r st (gx, gy) st.particles c).1).getD i default
     q = { p with x := clamp st.lo st.hi (p.x + vx), y := clamp st.lo st.hi (p.y + vy),
                  vx := vx, vy := vy } ∧
     (st.hi < p.x + vx → q.x = st.hi ∧ q.vx = vx) ∧
     (p.x + vx < st.lo → q.x = st.lo ∧ q.vx = vx)) ∧
    (PSO.step r f st b c).1.particles =
      ((PSO.evaluate f
        { st with particles := (PSO.moveAll r st (gx, gy) st.particles c).1 } b).1).particles ∧
    (PSO.step r f st b c).2.2 = ⟨c.u + 2 * st.particles.length, c.g⟩ := by
  have hq := PSO.moveAll_getD r st (gx, gy) st.particles c i h
  have hmp : (PSO.moveParticle r st (gx, gy) (st.particles.getD i default)
      ⟨c.u + 2 * i, c.g⟩).1 =
      (let p := st.particles.getD i default
       let r1 := r.unif (c.u + 2 * i)
       let r2 := r.unif (c.u + 2 * i + 1)
       let vx := st.w * p.vx + st.c1 * r1 * (p.pbestX - p.x) + st.c2 * r2 * (gx - p.x)
       let vy := st.w * p.vy + st.c1 * r1 * (p.pbestY - p.y) + st.c2 * r2 * (gy - p.y)
       { p with x := clamp st.lo st.hi (p.x + vx), y := clamp st.lo st.hi (p.y + vy),
                vx := vx, vy := vy }) := rfl
  refine ⟨⟨?_, ?_, ?_⟩, ?_, ?_⟩
  · rw [hq, hmp]
  · intro hout
    rw [hq, hmp]
    constructor
    · show clamp st.lo st.hi _ = st.hi
      unfold clamp
      rw [min_eq_left (le_of_lt hout), max_eq_right hlohi]
    · rfl
  · intro hout
    rw [hq, hmp]
    constructor
    · show clamp st.lo st.hi _ = st.lo
      unfold clamp
      rw [min_eq_right (le_of_lt (lt_of_lt_of_le hout hlohi)), max_eq_left (le_of_lt hout)]
    · rfl
  · rw [PSO.stepP_eq]
    have : b.pos.getD (0, 0) = (gx, gy) := by rw [hb]; rfl
    rw [this]
  · rw [PSO.stepP_eq]
    have : b.pos.getD (0, 0) = (gx, gy) := by rw [hb]; rfl
    rw [this, PSO.moveAll_cursor]

theorem C7_pso_step_update_witness :
    (let p := pstC7.particles.getD 0 default
      let r1 := qRng.unif ((⟨0, 0⟩ : Cur).u + 2 * 0)
      let r2 := qRng.unif ((⟨0, 0⟩ : Cur).u + 2 * 0 + 1)
      let vx := pstC7.w * p.vx + pstC7.c1 * r1 * (p.pbestX - p.x)
                  + pstC7.c2 * r2 * (1 - p.x)
      let vy := pstC7.w * p.vy + pstC7.c1 * r1 * (p.pbestY - p.y)
                  + pstC7.c2 * r2 * (1 - p.y)
      let q := ((PSO.moveAll qRng pstC7 (1, 1) pstC7.particles ⟨0, 0⟩).1).getD 0 default
      q = { p with x := clamp pstC7.lo pstC7.hi (p.x + vx),
                   y := clamp pstC7.lo pstC7.hi (p.y + vy), vx := vx, vy := vy } ∧
      (pstC7.hi < p.x + vx → q.x = pstC7.hi ∧ q.vx = vx) ∧
      (p.x + vx < pstC7.lo → q.x = pstC7.lo ∧ q.vx = vx)) ∧
    (PSO.step qRng sphereQ pstC7 pbC7 ⟨0, 0⟩).1.particles =
      ((PSO.evaluate sphereQ
        { pstC7 with
          particles := (PSO.moveAll qRng pstC7 (1, 1) pstC7.particles ⟨0, 0⟩).1 }
        pbC7).1).particles ∧
    (PSO.step qRng sphereQ pstC7 pbC7 ⟨0, 0⟩).2.2 =
      Cur.mk ((Cur.mk 0 0).u + 2 * pstC7.particles.length) (Cur.mk 0 0).g :=
  C7_pso_step_update qRng sphereQ pstC7 pbC7 ⟨0, 0⟩ 1 1 rfl (by decide) 0 (by decide)

/-! ## Claim C5: population size and sort order after every evaluate -/

theorem GA.init_population_length (r : Rng α) (f : α → α → α) (popSize : ℕ)
    (mr cr : α) (el : Bool) (lo hi : α) (b : GBest α) (c : Cur) :
    ((GA.init r f popSize mr cr el lo hi b c).1).population.length = popSize := by
  rw [GA.init_eq, GA.evaluate_population_length]
  exact GA.initMembers_length r lo hi popSize c

theorem GA.buildOne_length_le (r : Rng α) (st : GAState α) (acc : List (Ind α)) (c : Cur)
    (h : acc.length < st.popSize) :
    acc.length < ((GA.buildOne r st acc c).1).length ∧
    ((GA.buildOne r st acc c).1).length ≤ st.popSize := by
  unfold GA.buildOne
  dsimp only
  split
  · rename_i hcond
    simp only [List.length_append, List.length_singleton] at hcond ⊢
    omega
  · rename_i hcond
    simp only [List.length_append, List.length_singleton] at hcond ⊢
    omega

theorem GA.buildNewPop_length (r : Rng α) (st : GAState α) :
    ∀ (fuel : ℕ) (acc : List (Ind α)) (c : Cur),
      acc.length ≤ st.popSize → st.popSize ≤ acc.length + fuel →
      ((GA.buildNewPop r st fuel acc c).1).length = st.popSize := by
  intro fuel
  induction fuel with
  | zero =>
    intro acc c h1 h2
    simp only [GA.buildNewPop]
    omega
  | succ k ih =>
    intro acc c h1 h2
    rw [GA.buildNewPop]
    by_cases hlt : acc.length < st.popSize
    · rw [if_pos hlt]
      have hb := GA.buildOne_length_le r st acc c hlt
      exact ih _ _ hb.2 (by omega)
    · rw [if_neg hlt]
      simp only
      omega

theorem GA.evaluate_sorted (f : α → α → α) (st : GAState α) (b : GBest α) :
    GASorted (GA.evaluate f st b).1 := by
  rw [GA.evaluate_eq]
  exact GA.sortPop_sorted _

theorem GA.step_sorted (r : Rng α) (f : α → α → α) (st : GAState α) (b : GBest α) (c : Cur) :
    GASorted (GA.step r f st b c).1 := by
  rw [GA.step_eq]
  exact GA.evaluate_sorted f _ b

theorem GA.step_population_length (r : Rng α) (f : α → α → α) (st : GAState α)
    (b : GBest α) (c : Cur) (h : 1 ≤ st.popSize) :
    ((GA.step r f st b c).1).population.length = st.popSize := by
  rw [GA.step_eq, GA.evaluate_population_length]
  have hstart : (if st.elitism = true then [st.population.headD default] else
      ([] : List (Ind α))).length ≤ st.popSize := by
    cases st.elitism <;> simp <;> omega
  exact GA.buildNewPop_length r st st.popSize _ _ hstart (by
    cases st.elitism <;> simp <;> omega)

theorem GA.step_params (r : Rng α) (f : α → α → α) (st : GAState α) (b : GBest α) (c : Cur) :
    ((GA.step r f st b c).1).popSize = st.popSize ∧
    ((GA.step r f st b c).1).mutationRate = st.mutationRate ∧
    ((GA.step r f st b c).1).crossoverRate = st.crossoverRate ∧
    ((GA.step r f st b c).1).elitism = st.elitism ∧
    ((GA.step r f st b c).1).lo = st.lo ∧
    ((GA.step r f st b c).1).hi = st.hi := by
  rw [GA.step_eq, GA.evaluate_eq]
  exact ⟨rfl, rfl, rfl, rfl, rfl, rfl⟩

theorem GA.run_zero (r : Rng α) (f : α → α → α) (popSize : ℕ) (mr cr : α) (el : Bool)
    (lo hi : α) (b : GBest α) (c : Cur) :
    GA.run r f popSize mr cr el lo hi b c 0 = GA.init r f popSize mr cr el lo hi b c := rfl

theorem GA.run_succ (r : Rng α) (f : α → α → α) (popSize : ℕ) (mr cr : α) (el : Bool)
    (lo hi : α) (b : GBest α) (c : Cur) (n : ℕ) :
    GA.run r f popSize mr cr el lo hi b c (n + 1) =
      GA.step r f (GA.run r f popSize mr cr el lo hi b c n).1
        (GA.run r f popSize mr cr el lo hi b c n).2.1
        (GA.run r f popSize mr cr el lo hi b c n).2.2 := by
  unfold GA.run
  rw [Function.iterate_succ_apply']

theorem GA.run_basic (r : Rng α) (f : α → α → α) (popSize : ℕ) (mr cr : α) (el : Bool)
    (lo hi : α) (b : GBest α) (c : Cur) (hpop : 1 ≤ popSize) :
    ∀ n, ((GA.run r f popSize mr cr el lo hi b c n).1).popSize = popSize ∧
      ((GA.run r f popSize mr cr el lo hi b c n).1).population.length = popSize ∧
      GASorted (GA.run r f popSize mr cr el lo hi b c n).1 ∧
      ((GA.run r f popSize mr cr el lo hi b c n).1).lo = lo ∧
      ((GA.run r f popSize mr cr el lo hi b c n).1).hi = hi := by
  intro n
  induction n with
  | zero =>
    refine ⟨?_, GA.init_population_length r f popSize mr cr el lo hi b c, ?_, ?_, ?_⟩
    · rw [GA.run_zero, GA.init_eq, GA.evaluate_eq]
    · rw [GA.run_zero, GA.init_eq]
      exact GA.evaluate_sorted f _ b
    · rw [GA.run_zero, GA.init_eq, GA.evaluate_eq]
    · rw [GA.run_zero, GA.init_eq, GA.evaluate_eq]
  | succ n ih =>
    rw [GA.run_succ]
    refine ⟨(GA.step_params r f _ _ _).1.trans ih.1, ?_, GA.step_sorted r f _ _ _,
      (GA.step_params r f _ _ _).2.2.2.2.1.trans ih.2.2.2.1,
      (GA.step_params r f _ _ _).2.2.2.2.2.trans ih.2.2.2.2⟩
    rw [GA.step_population_length r f _ _ _ (by rw [ih.1]; omega)]
    exact ih.1

/-- Claim C5: for every validly constructed GA (populationSize at least
2), after the evaluate of the constructor and after the evaluate ending
each step, the population has exactly populationSize members and is
sorted ascending by fitness. -/
theorem C5_population_size_sorted (r : Rng α) (f : α → α → α) (popSize : ℕ)
    (mr cr : α) (el : Bool) (lo hi : α) (b : GBest α) (c : Cur) (n : ℕ)
    (hpop : 2 ≤ popSize) :
    ((GA.run r f popSize mr cr el lo hi b c n).1).population.length = popSize ∧
    GASorted (GA.run r f popSize mr cr el lo hi b c n).1 := by
  have h := GA.run_basic r f popSize mr cr el lo hi b c (by omega) n
  exact ⟨h.2.1, h.2.2.1⟩

unseal List.mergeSort List.merge in
theorem C5_population_size_sorted_witness :
    2 ≤ 2 ∧
    (((GA.run qRng sphereQ 2 0 0 true (-512 / 100) (512 / 100)
        ⟨⊤, none⟩ ⟨0, 0⟩ 1).1).population.length = 2 ∧
      GASorted (GA.run qRng sphereQ 2 0 0 true (-512 / 100) (512 / 100)
        ⟨⊤, none⟩ ⟨0, 0⟩ 1).1) :=
  ⟨by decide, C5_population_size_sorted qRng sphereQ 2 0 0 true (-512 / 100) (512 / 100)
    ⟨⊤, none⟩ ⟨0, 0⟩ 1 (by decide)⟩

/-! ## Claim C6: boundary invariant -/

theorem randomIn_mem (r : Rng α) (lo hi : α) (c : Cur) (hlh : lo ≤ hi)
    (ht0 : 0 ≤ r.unif c.u) (ht1 : r.unif c.u < 1) :
    lo ≤ (randomIn r lo hi c).1 ∧ (randomIn r lo hi c).1 ≤ hi := by
  unfold randomIn mathRandom
  dsimp only
  have hd : (0 : α) ≤ hi - lo := sub_nonneg.2 hlh
  have h1 : 0 ≤ r.unif c.u * (hi - lo) := mul_nonneg ht0 hd
  have h2 : r.unif c.u * (hi - lo) ≤ 1 * (hi - lo) :=
    mul_le_mul_of_nonneg_right (le_of_lt ht1) hd
  constructor
  · linarith
  · linarith

theorem clamp_mem (lo hi x : α) (hlh : lo ≤ hi) :
    lo ≤ clamp lo hi x ∧ clamp lo hi x ≤ hi := by
  unfold clamp
  exact ⟨le_max_left _ _, max_le hlh (min_le_left _ _)⟩

theorem blend_mem (lo hi a x1 x2 : α) (ha0 : 0 ≤ a) (ha1 : a ≤ 1)
    (h1 : lo ≤ x1) (h2 : x1 ≤ hi) (h3 : lo ≤ x2) (h4 : x2 ≤ hi) :
    lo ≤ a * x1 + (1 - a) * x2 ∧ a * x1 + (1 - a) * x2 ≤ hi := by
  have ha2 : (0 : α) ≤ 1 - a := by linarith
  constructor
  · nlinarith [mul_le_mul_of_nonneg_left h1 ha0, mul_le_mul_of_nonneg_left h3 ha2]
  · nlinarith [mul_le_mul_of_nonneg_left h2 ha0, mul_le_mul_of_nonneg_left h4 ha2]

theorem GA.pickRandom_mem (r : Rng α) (st : GAState α) (c : Cur)
    (hlen : st.population.length = st.popSize) (hpos : 0 < st.popSize)
    (ht0 : 0 ≤ r.unif c.u) (ht1 : r.unif c.u < 1) :
    (GA.pickRandom r st c).1 ∈ st.population := by
  unfold GA.pickRandom mathRandom
  dsimp only
  have hcast : (0 : α) < (st.popSize : α) := by exact_mod_cast hpos
  have hfl0 : 0 ≤ ⌊r.unif c.u * (st.popSize : α)⌋ :=
    Int.floor_nonneg.2 (mul_nonneg ht0 (le_of_lt hcast))
  have hflt : ⌊r.unif c.u * (st.popSize : α)⌋ < (st.popSize : ℤ) := by
    apply Int.floor_lt.2
    push_cast
    calc r.unif c.u * (st.popSize : α) < 1 * (st.popSize : α) :=
          mul_lt_mul_of_pos_right ht1 hcast
      _ = (st.popSize : α) := one_mul _
  have hidx : Int.toNat ⌊r.unif c.u * (st.popSize : α)⌋ < st.popSize := by omega
  rw [List.getD_eq_getElem _ _ (by rw [hlen]; exact hidx)]
  exact List.getElem_mem _

theorem GA.tournamentSelect_mem (r : Rng α) (st : GAState α) (c : Cur)
    (hr : ∀ k, 0 ≤ r.unif k ∧ r.unif k < 1)
    (hlen : st.population.length = st.popSize) (hpos : 0 < st.popSize) :
    (GA.tournamentSelect r st c).1 ∈ st.population := by
  unfold GA.tournamentSelect
  dsimp only
  have m1 := GA.pickRandom_mem r st c hlen hpos (hr _).1 (hr _).2
  have m2 := GA.pickRandom_mem r st (GA.pickRandom r st c).2 hlen hpos (hr _).1 (hr _).2
  have m3 := GA.pickRandom_mem r st (GA.pickRandom r st (GA.pickRandom r st c).2).2
    hlen hpos (hr _).1 (hr _).2
  split
  · split
    · exact m3
    · exact m2
  · split
    · exact m3
    · exact m1

theorem GA.crossoverPair_mem (r : Rng α) (st : GAState α) (p1 p2 : Ind α) (c : Cur)
    (hr : ∀ k, 0 ≤ r.unif k ∧ r.unif k < 1) (hlh : st.lo ≤ st.hi)
    (h1 : IndInB st.lo st.hi p1) (h2 : IndInB st.lo st.hi p2) :
    IndInB st.lo st.hi ((GA.crossoverPair r st p1 p2 c).1).1 ∧
    IndInB st.lo st.hi ((GA.crossoverPair r st p1 p2 c).1).2 := by
  obtain ⟨h1x1, h1x2, h1y1, h1y2⟩ := h1
  obtain ⟨h2x1, h2x2, h2y1, h2y2⟩ := h2
  unfold GA.crossoverPair mathRandom
  dsimp only
  split
  · set a := r.unif (Cur.u ⟨c.u + 1, c.g⟩) with ha
    have ha0 : 0 ≤ a := (hr _).1
    have ha1 : a ≤ 1 := le_of_lt (hr _).2
    constructor
    · exact ⟨(blend_mem _ _ a _ _ ha0 ha1 h1x1 h1x2 h2x1 h2x2).1,
        (blend_mem _ _ a _ _ ha0 ha1 h1x1 h1x2 h2x1 h2x2).2,
        (blend_mem _ _ a _ _ ha0 ha1 h1y1 h1y2 h2y1 h2y2).1,
        (blend_mem _ _ a _ _ ha0 ha1 h1y1 h1y2 h2y1 h2y2).2⟩
    · exact ⟨(blend_mem _ _ a _ _ ha0 ha1 h2x1 h2x2 h1x1 h1x2).1,
        (blend_mem _ _ a _ _ ha0 ha1 h2x1 h2x2 h1x1 h1x2).2,
        (blend_mem _ _ a _ _ ha0 ha1 h2y1 h2y2 h1y1 h1y2).1,
        (blend_mem _ _ a _ _ ha0 ha1 h2y1 h2y2 h1y1 h1y2).2⟩
  · exact ⟨⟨h1x1, h1x2, h1y1, h1y2⟩, ⟨h2x1, h2x2, h2y1, h2y2⟩⟩

theorem GA.mutate_mem (r : Rng α) (st : GAState α) (ind : Ind α) (c : Cur)
    (hlh : st.lo ≤ st.hi) (h : IndInB st.lo st.hi ind) :
    IndInB st.lo st.hi (GA.mutate r st ind c).1 := by
  obtain ⟨hx1, hx2, hy1, hy2⟩ := h
  unfold GA.mutate
  dsimp only
  split
  · split
    · exact ⟨(clamp_mem _ _ _ hlh).1, (clamp_mem _ _ _ hlh).2,
        (clamp_mem _ _ _ hlh).1, (clamp_mem _ _ _ hlh).2⟩
    · exact ⟨(clamp_mem _ _ _ hlh).1, (clamp_mem _ _ _ hlh).2, hy1, hy2⟩
  · split
    · exact ⟨hx1, hx2, (clamp_mem _ _ _ hlh).1, (clamp_mem _ _ _ hlh).2⟩
    · exact ⟨hx1, hx2, hy1, hy2⟩

theorem headD_mem {β : Type} {l : List β} (d : β) (h : l ≠ []) : l.headD d ∈ l := by
  cases l with
  | nil => exact absurd rfl h
  | cons a t => simp

theorem GA.buildOne_inB (r : Rng α) (st : GAState α) (acc : List (Ind α)) (c : Cur)
    (hr : ∀ k, 0 ≤ r.unif k ∧ r.unif k < 1) (hlh : st.lo ≤ st.hi)
    (hlen : st.population.length = st.popSize) (hpos : 0 < st.popSize)
    (hpop : ∀ m ∈ st.population, IndInB st.lo st.hi m)
    (hacc : ∀ m ∈ acc, IndInB st.lo st.hi m) :
    ∀ m ∈ (GA.buildOne r st acc c).1, IndInB st.lo st.hi m := by
  intro m hm
  unfold GA.buildOne at hm
  dsimp only at hm
  set k1 := GA.tournamentSelect r st c with hk1
  set k2 := GA.tournamentSelect r st k1.2 with hk2
  set ch := GA.crossoverPair r st k1.1 k2.1 k2.2 with hch0
  set m1 := GA.mutate r st ch.1.1 ch.2 with hm1
  set m2 := GA.mutate r st ch.1.2 m1.2 with hm2
  have hp1 : IndInB st.lo st.hi k1.1 := by
    rw [hk1]
    exact hpop _ (GA.tournamentSelect_mem r st c hr hlen hpos)
  have hp2 : IndInB st.lo st.hi k2.1 := by
    rw [hk2]
    exact hpop _ (GA.tournamentSelect_mem r st k1.2 hr hlen hpos)
  have hch : IndInB st.lo st.hi ch.1.1 ∧ IndInB st.lo st.hi ch.1.2 := by
    rw [hch0]
    exact GA.crossoverPair_mem r st k1.1 k2.1 k2.2 hr hlh hp1 hp2
  have hd1 : IndInB st.lo st.hi m1.1 := by
    rw [hm1]
    exact GA.mutate_mem r st ch.1.1 ch.2 hlh hch.1
  have hd2 : IndInB st.lo st.hi m2.1 := by
    rw [hm2]
    exact GA.mutate_mem r st ch.1.2 m1.2 hlh hch.2
  split at hm
  · rcases List.mem_append.1 hm with hmm | hmm
    · rcases List.mem_append.1 hmm with hmm2 | hmm2
      · exact hacc _ hmm2
      · rw [List.mem_singleton.1 hmm2]
        exact hd1
    · rw [List.mem_singleton.1 hmm]
      exact hd2
  · rcases List.mem_append.1 hm with hmm | hmm
    · exact hacc _ hmm
    · rw [List.mem_singleton.1 hmm]
      exact hd1

theorem GA.buildNewPop_inB (r : Rng α) (st : GAState α)
    (hr : ∀ k, 0 ≤ r.unif k ∧ r.unif k < 1) (hlh : st.lo ≤ st.hi)
    (hlen : st.population.length = st.popSize) (hpos : 0 < st.popSize)
    (hpop : ∀ m ∈ st.population, IndInB st.lo st.hi m) :
    ∀ (fuel : ℕ) (acc : List (Ind α)) (c : Cur),
      (∀ m ∈ acc, IndInB st.lo st.hi m) →
      ∀ m ∈ (GA.buildNewPop r st fuel acc c).1, IndInB st.lo st.hi m := by
  intro fuel
  induction fuel with
  | zero =>
    intro acc c hacc
    simpa [GA.buildNewPop] using hacc
  | succ k ih =>
    intro acc c hacc
    rw [GA.buildNewPop]
    by_cases hlt : acc.length < st.popSize
    · rw [if_pos hlt]
      exact ih _ _ (GA.buildOne_inB r st acc c hr hlh hlen hpos hpop hacc)
    · rw [if_neg hlt]
      exact hacc

theorem GA.evaluate_mem (f : α → α → α) (st : GAState α) (b : GBest α) (m : Ind α)
    (hm : m ∈ ((GA.evaluate f st b).1).population) :
    ∃ m0 ∈ st.population, m.x = m0.x ∧ m.y = m0.y := by
  rw [GA.evaluate_eq] at hm
  dsimp only at hm
  rw [GA.mem_sortPop] at hm
  obtain ⟨m0, hm0, hmeq⟩ := List.mem_map.1 hm
  exact ⟨m0, hm0, by rw [← hmeq], by rw [← hmeq]⟩

theorem GA.evaluate_inB (f : α → α → α) (st : GAState α) (b : GBest α) (lo hi : α)
    (h : ∀ m ∈ st.population, IndInB lo hi m) :
    GAInBounds lo hi (GA.evaluate f st b).1 := by
  intro m hm
  obtain ⟨m0, hm0, hx, hy⟩ := GA.evaluate_mem f st b m hm
  have h0 := h m0 hm0
  unfold IndInB at h0 ⊢
  rw [hx, hy]
  exact h0

theorem GA.initMembers_inB (r : Rng α) (lo hi : α)
    (hr : ∀ k, 0 ≤ r.unif k ∧ r.unif k < 1) (hlh : lo ≤ hi) :
    ∀ (n : ℕ) (c : Cur), ∀ m ∈ (GA.initMembers r lo hi n c).1, IndInB lo hi m := by
  intro n
  induction n with
  | zero =>
    intro c m hm
    simp [GA.initMembers] at hm
  | succ k ih =>
    intro c m hm
    simp only [GA.initMembers, List.mem_cons] at hm
    rcases hm with hm | hm
    · have hx := randomIn_mem r lo hi c hlh (hr _).1 (hr _).2
      have hy := randomIn_mem r lo hi (randomIn r lo hi c).2 hlh (hr _).1 (hr _).2
      rw [hm]
      exact ⟨hx.1, hx.2, hy.1, hy.2⟩
    · exact ih _ m hm

theorem GA.init_inB (r : Rng α) (f : α → α → α) (popSize : ℕ) (mr cr : α) (el : Bool)
    (lo hi : α) (b : GBest α) (c : Cur)
    (hr : ∀ k, 0 ≤ r.unif k ∧ r.unif k < 1) (hlh : lo ≤ hi) :
    GAInBounds lo hi (GA.init r f popSize mr cr el lo hi b c).1 := by
  rw [GA.init_eq]
  exact GA.evaluate_inB f _ b lo hi (GA.initMembers_inB r lo hi hr hlh popSize c)

theorem GA.step_inB (r : Rng α) (f : α → α → α) (st : GAState α) (b : GBest α) (c : Cur)
    (hr : ∀ k, 0 ≤ r.unif k ∧ r.unif k < 1) (hlh : st.lo ≤ st.hi)
    (hlen : st.population.length = st.popSize) (hpos : 0 < st.popSize)
    (hpop : GAInBounds st.lo st.hi st) :
    GAInBounds st.lo st.hi (GA.step r f st b c).1 := by
  rw [GA.step_eq]
  apply GA.evaluate_inB _ _ b
  apply GA.buildNewPop_inB r st hr hlh hlen hpos hpop
  intro m hm
  split at hm
  · rw [List.mem_singleton.1 hm]
    apply hpop
    apply headD_mem
    intro hnil
    rw [hnil] at hlen
    simp at hlen
    omega
  · simp at hm

theorem GA.run_inB (r : Rng α) (f : α → α → α) (popSize : ℕ) (mr cr : α) (el : Bool)
    (lo hi : α) (b : GBest α) (c : Cur)
    (hr : ∀ k, 0 ≤ r.unif k ∧ r.unif k < 1) (hlh : lo ≤ hi) (hpos : 0 < popSize) :
    ∀ n, GAInBounds lo hi (GA.run r f popSize mr cr el lo hi b c n).1 := by
  intro n
  induction n with
  | zero =>
    rw [GA.run_zero]
    exact GA.init_inB r f popSize mr cr el lo hi b c hr hlh
  | succ n ih =>
    rw [GA.run_succ]
    have hb := GA.run_basic r f popSize mr cr el lo hi b c hpos n
    have hlo := hb.2.2.2.1
    have hhi := hb.2.2.2.2
    have hres := GA.step_inB r f (GA.run r f popSize mr cr el lo hi b c n).1
      (GA.run r f popSize mr cr el lo hi b c n).2.1
      (GA.run r f popSize mr cr el lo hi b c n).2.2 hr
      (by rw [hlo, hhi]; exact hlh)
      (by rw [hb.2.1, hb.1])
      (by rw [hb.1]; exact hpos)
      (by rw [hlo, hhi]; exact ih)
    rw [hlo, hhi] at hres
    exact hres

theorem PSO.initParticles_inB (r : Rng α) (lo hi : α)
    (hr : ∀ k, 0 ≤ r.unif k ∧ r.unif k < 1) (hlh : lo ≤ hi) :
    ∀ (n : ℕ) (c : Cur), ∀ p ∈ (PSO.initParticles r lo hi n c).1, PInB lo hi p := by
  intro n
  induction n with
  | zero =>
    intro c p hp
    simp [PSO.initParticles] at hp
  | succ k ih =>
    intro c p hp
    simp only [PSO.initParticles, List.mem_cons] at hp
    rcases hp with hp | hp
    · have hx := randomIn_mem r lo hi c hlh (hr _).1 (hr _).2
      have hy := randomIn_mem r lo hi (randomIn r lo hi c).2 hlh (hr _).1 (hr _).2
      rw [hp]
      exact ⟨hx.1, hx.2, hy.1, hy.2⟩
    · exact ih _ p hp

theorem PSO.evalParticle_pos (f : α → α → α) (p : Particle α) :
    (PSO.evalParticle f p).x = p.x ∧ (PSO.evalParticle f p).y = p.y := by
  unfold PSO.evalParticle
  dsimp only
  split
  · exact ⟨rfl, rfl⟩
  · exact ⟨rfl, rfl⟩

theorem PSO.evaluateP_inB (f : α → α → α) (st : PSOState α) (b : GBest α) (lo hi : α)
    (h : ∀ p ∈ st.particles, PInB lo hi p) :
    PSOInBounds lo hi (PSO.evaluate f st b).1 := by
  intro p hp
  rw [PSO.evaluateP_eq] at hp
  dsimp only at hp
  obtain ⟨p0, hp0, hpeq⟩ := List.mem_map.1 hp
  have h0 := h p0 hp0
  have hpos := PSO.evalParticle_pos f p0
  unfold PInB at h0 ⊢
  rw [← hpeq, hpos.1, hpos.2]
  exact h0

theorem PSO.moveAll_inB (r : Rng α) (st : PSOState α) (g : α × α) (hlh : st.lo ≤ st.hi) :
    ∀ (ps : List (Particle α)) (c : Cur),
      ∀ p ∈ (PSO.moveAll r st g ps c).1, PInB st.lo st.hi p := by
  intro ps
  induction ps with
  | nil =>
    intro c p hp
    simp [PSO.moveAll] at hp
  | cons q t ih =>
    intro c p hp
    simp only [PSO.moveAll, List.mem_cons] at hp
    rcases hp with hp | hp
    · rw [hp]
      unfold PSO.moveParticle
      dsimp only
      exact ⟨(clamp_mem _ _ _ hlh).1, (clamp_mem _ _ _ hlh).2,
        (clamp_mem _ _ _ hlh).1, (clamp_mem _ _ _ hlh).2⟩
    · exact ih _ p hp

theorem PSO.stepP_inB (r : Rng α) (f : α → α → α) (st : PSOState α) (b : GBest α) (c : Cur)
    (hlh : st.lo ≤ st.hi) :
    PSOInBounds st.lo st.hi (PSO.step r f st b c).1 := by
  rw [PSO.stepP_eq]
  exact PSO.evaluateP_inB f _ b st.lo st.hi
    (PSO.moveAll_inB r st _ hlh st.particles c)

theorem PSO.runP_zero (r : Rng α) (f : α → α → α) (swarmSize : ℕ) (w c1 c2 lo hi : α)
    (b : GBest α) (c : Cur) :
    PSO.run r f swarmSize w c1 c2 lo hi b c 0 =
      PSO.init r f swarmSize w c1 c2 lo hi b c := rfl

theorem PSO.runP_succ (r : Rng α) (f : α → α → α) (swarmSize : ℕ) (w c1 c2 lo hi : α)
    (b : GBest α) (c : Cur) (n : ℕ) :
    PSO.run r f swarmSize w c1 c2 lo hi b c (n + 1) =
      PSO.step r f (PSO.run r f swarmSize w c1 c2 lo hi b c n).1
        (PSO.run r f swarmSize w c1 c2 lo hi b c n).2.1
        (PSO.run r f swarmSize w c1 c2 lo hi b c n).2.2 := by
  unfold PSO.run
  rw [Function.iterate_succ_apply']

theorem PSO.step_bounds_fields (r : Rng α) (f : α → α → α) (st : PSOState α)
    (b : GBest α) (c : Cur) :
    ((PSO.step r f st b c).1).lo = st.lo ∧ ((PSO.step r f st b c).1).hi = st.hi := by
  rw [PSO.stepP_eq, PSO.evaluateP_eq]
  exact ⟨rfl, rfl⟩

theorem PSO.runP_inB (r : Rng α) (f : α → α → α) (swarmSize : ℕ) (w c1 c2 lo hi : α)
    (b : GBest α) (c : Cur)
    (hr : ∀ k, 0 ≤ r.unif k ∧ r.unif k < 1) (hlh : lo ≤ hi) :
    ∀ n, PSOInBounds lo hi (PSO.run r f swarmSize w c1 c2 lo hi b c n).1 := by
  have hfields : ∀ n, ((PSO.run r f swarmSize w c1 c2 lo hi b c n).1).lo = lo ∧
      ((PSO.run r f swarmSize w c1 c2 lo hi b c n).1).hi = hi := by
    intro n
    induction n with
    | zero =>
      rw [PSO.runP_zero, PSO.initP_eq, PSO.evaluateP_eq]
      exact ⟨rfl, rfl⟩
    | succ n ih =>
      rw [PSO.runP_succ]
      exact ⟨(PSO.step_bounds_fields r f _ _ _).1.trans ih.1,
        (PSO.step_bounds_fields r f _ _ _).2.trans ih.2⟩
  intro n
  induction n with
  | zero =>
    rw [PSO.runP_zero, PSO.initP_eq]
    exact PSO.evaluateP_inB f _ b lo hi (PSO.initParticles_inB r lo hi hr hlh swarmSize c)
  | succ n ih =>
    rw [PSO.runP_succ]
    have hst := hfields n
    have hres := PSO.stepP_inB r f (PSO.run r f swarmSize w c1 c2 lo hi b c n).1
      (PSO.run r f swarmSize w c1 c2 lo hi b c n).2.1
      (PSO.run r f swarmSize w c1 c2 lo hi b c n).2.2
      (by rw [hst.1, hst.2]; exact hlh)
    rw [hst.1, hst.2] at hres
    exact hres

/-- Claim C6: with uniform draws in the interval from 0 inclusive to 1
exclusive and a well-ordered bounding box, after every evaluate both
coordinates of every GA member and of every PSO particle lie within the
bounds: GA clamps mutated coordinates, blend crossover keeps children
inside by convexity, and PSO hard-clamps positions at the end of every
step. -/
theorem C6_members_in_bounds (r : Rng α) (f : α → α → α) (popSize swarmSize : ℕ)
    (mr cr : α) (el : Bool) (w cc1 cc2 : α) (lo hi : α) (b b2 : GBest α)
    (c c2 : Cur) (n m : ℕ)
    (hr : ∀ k, 0 ≤ r.unif k ∧ r.unif k < 1) (hlh : lo ≤ hi) (hpop : 2 ≤ popSize) :
    GAInBounds lo hi (GA.run r f popSize mr cr el lo hi b c n).1 ∧
    PSOInBounds lo hi (PSO.run r f swarmSize w cc1 cc2 lo hi b2 c2 m).1 :=
  ⟨GA.run_inB r f popSize mr cr el lo hi b c hr hlh (by omega) n,
   PSO.runP_inB r f swarmSize w cc1 cc2 lo hi b2 c2 hr hlh m⟩

unseal List.mergeSort List.merge in
theorem C6_members_in_bounds_witness :
    GAInBounds (-512 / 100) (512 / 100)
      (GA.run qRng sphereQ 2 0 0 true (-512 / 100) (512 / 100) ⟨⊤, none⟩ ⟨0, 0⟩ 1).1 ∧
    PSOInBounds (-512 / 100) (512 / 100)
      (PSO.run qRng sphereQ 1 0 0 0 (-512 / 100) (512 / 100) ⟨⊤, none⟩ ⟨0, 0⟩ 1).1 :=
  C6_members_in_bounds qRng sphereQ 2 1 0 0 true 0 0 0 (-512 / 100) (512 / 100)
    ⟨⊤, none⟩ ⟨⊤, none⟩ ⟨0, 0⟩ ⟨0, 0⟩ 1 1
    (fun k => ⟨le_refl 0, by show (0 : ℚ) < 1; norm_num⟩) (by norm_num) (by norm_num)

/-! ## Claim C8: elitism makes the generation-best fitness monotone -/

theorem minFit_cons (a : Ind α) (t : List (Ind α)) :
    minFit (a :: t) = min a.fitness (minFit t) := rfl

theorem minFit_le_of_mem {pop : List (Ind α)} {m : Ind α} (hm : m ∈ pop) :
    minFit pop ≤ m.fitness := by
  induction pop with
  | nil => simp at hm
  | cons a t ih =>
    rw [minFit_cons]
    rcases List.mem_cons.1 hm with hm | hm
    · rw [hm]
      exact min_le_left _ _
    · exact le_trans (min_le_right _ _) (ih hm)

theorem le_minFit {pop : List (Ind α)} {v : WithTop α}
    (h : ∀ m ∈ pop, v ≤ m.fitness) : v ≤ minFit pop := by
  induction pop with
  | nil => exact le_top
  | cons a t ih =>
    rw [minFit_cons]
    exact le_min (h a (by simp)) (ih fun m hm => h m (by simp [hm]))

theorem sorted_minFit (a : Ind α) (t : List (Ind α))
    (hs : List.Sorted (fun a b : Ind α => a.fitness ≤ b.fitness) (a :: t)) :
    minFit (a :: t) = a.fitness := by
  rw [minFit_cons]
  exact min_eq_left (le_minFit (List.sorted_cons.1 hs).1)

theorem GA.evaluate_evaluated (f : α → α → α) (st : GAState α) (b : GBest α) :
    GAEvaluated f (GA.evaluate f st b).1 := by
  intro m hm
  rw [GA.evaluate_eq] at hm
  dsimp only at hm
  rw [GA.mem_sortPop] at hm
  obtain ⟨m0, hm0, hmeq⟩ := List.mem_map.1 hm
  rw [← hmeq]

theorem GA.run_evaluated (r : Rng α) (f : α → α → α) (popSize : ℕ) (mr cr : α)
    (el : Bool) (lo hi : α) (b : GBest α) (c : Cur) :
    ∀ n, GAEvaluated f (GA.run r f popSize mr cr el lo hi b c n).1 := by
  intro n
  cases n with
  | zero =>
    rw [GA.run_zero, GA.init_eq]
    exact GA.evaluate_evaluated f _ b
  | succ n =>
    rw [GA.run_succ, GA.step_eq]
    exact GA.evaluate_evaluated f _ ((GA.run r f popSize mr cr el lo hi b c n).2.1)

theorem GA.run_elitism (r : Rng α) (f : α → α → α) (popSize : ℕ) (mr cr : α)
    (el : Bool) (lo hi : α) (b : GBest α) (c : Cur) :
    ∀ n, ((GA.run r f popSize mr cr el lo hi b c n).1).elitism = el := by
  intro n
  induction n with
  | zero => rw [GA.run_zero, GA.init_eq, GA.evaluate_eq]
  | succ n ih =>
    rw [GA.run_succ]
    exact (GA.step_params r f _ _ _).2.2.2.1.trans ih

theorem GA.buildOne_acc_sub (r : Rng α) (st : GAState α) (acc : List (Ind α)) (c : Cur)
    {a : Ind α} (ha : a ∈ acc) : a ∈ (GA.buildOne r st acc c).1 := by
  unfold GA.buildOne
  dsimp only
  split
  · exact List.mem_append_left _ (List.mem_append_left _ ha)
  · exact List.mem_append_left _ ha

theorem GA.buildNewPop_acc_sub (r : Rng α) (st : GAState α) :
    ∀ (fuel : ℕ) (acc : List (Ind α)) (c : Cur) {a : Ind α},
      a ∈ acc → a ∈ (GA.buildNewPop r st fuel acc c).1 := by
  intro fuel
  induction fuel with
  | zero =>
    intro acc c a ha
    simpa [GA.buildNewPop] using ha
  | succ k ih =>
    intro acc c a ha
    rw [GA.buildNewPop]
    by_cases hlt : acc.length < st.popSize
    · rw [if_pos hlt]
      exact ih _ _ (GA.buildOne_acc_sub r st acc c ha)
    · rw [if_neg hlt]
      exact ha

theorem GA.evaluate_minFit_le (f : α → α → α) (st : GAState α) (b : GBest α)
    (m0 : Ind α) (hm0 : m0 ∈ st.population) :
    minFit ((GA.evaluate f st b).1).population ≤ ((f m0.x m0.y : α) : WithTop α) := by
  have hmem : ({ m0 with fitness := ((f m0.x m0.y : α) : WithTop α) } : Ind α) ∈
      ((GA.evaluate f st b).1).population := by
    rw [GA.evaluate_eq]
    dsimp only
    rw [GA.mem_sortPop]
    exact List.mem_map.2 ⟨m0, hm0, rfl⟩
  exact minFit_le_of_mem hmem

theorem GA.step_minFit (r : Rng α) (f : α → α → α) (st : GAState α) (b : GBest α)
    (c : Cur) (hel : st.elitism = true) (hsor : GASorted st) (hev : GAEvaluated f st)
    (hne : st.population ≠ []) :
    minFit ((GA.step r f st b c).1).population ≤ minFit st.population := by
  have helite : st.population.headD default ∈
      (GA.buildNewPop r st st.popSize
        (if st.elitism = true then [st.population.headD default] else []) c).1 := by
    apply GA.buildNewPop_acc_sub
    rw [hel]
    simp
  have h1 := GA.evaluate_minFit_le f
    { st with population := (GA.buildNewPop r st st.popSize
        (if st.elitism = true then [st.population.headD default] else []) c).1 } b
    (st.population.headD default) helite
  rw [GA.step_eq]
  refine le_trans h1 ?_
  have h2 := hev _ (headD_mem default hne)
  rw [← h2]
  rcases hp : st.population with _ | ⟨a, t⟩
  · exact absurd hp hne
  · have hsor2 : List.Sorted (fun x y : Ind α => x.fitness ≤ y.fitness) (a :: t) := by
      rw [← hp]
      exact hsor
    rw [sorted_minFit a t hsor2]
    simp

/-- Claim C8: for a GA constructed with elitism, the minimum fitness
value present in generation k + 1 is at most the minimum fitness value
present in generation k: the sorted index-0 member is copied unchanged
into the next generation and its deterministic re-evaluation yields the
same fitness. -/
theorem C8_elitism_monotone (r : Rng α) (f : α → α → α) (popSize : ℕ) (mr cr : α)
    (lo hi : α) (b : GBest α) (c : Cur) (n : ℕ) (hpop : 2 ≤ popSize) :
    minFit ((GA.run r f popSize mr cr true lo hi b c (n + 1)).1).population ≤
      minFit ((GA.run r f popSize mr cr true lo hi b c n).1).population := by
  have hb := GA.run_basic r f popSize mr cr true lo hi b c (by omega) n
  rw [GA.run_succ]
  apply GA.step_minFit
  · exact GA.run_elitism r f popSize mr cr true lo hi b c n
  · exact hb.2.2.1
  · exact GA.run_evaluated r f popSize mr cr true lo hi b c n
  · intro hnil
    have := hb.2.1
    rw [hnil] at this
    simp at this
    omega

unseal List.mergeSort List.merge in
theorem C8_elitism_monotone_witness :
    minFit ((GA.run qRng sphereQ 2 0 0 true (-512 / 100) (512 / 100)
        ⟨⊤, none⟩ ⟨0, 0⟩ 1).1).population ≤
      minFit ((GA.run qRng sphereQ 2 0 0 true (-512 / 100) (512 / 100)
        ⟨⊤, none⟩ ⟨0, 0⟩ 0).1).population :=
  C8_elitism_monotone qRng sphereQ 2 0 0 (-512 / 100) (512 / 100)
    ⟨⊤, none⟩ ⟨0, 0⟩ 0 (by decide)

/-! ## Claim C3: the archive shares the live history array -/

theorem getD_set_ne {β : Type} (l : List β) (i q : ℕ) (a d : β) (h : q ≠ i) :
    (l.set i a).getD q d = l.getD q d := by
  rw [List.getD_eq_getElem?_getD, List.getD_eq_getElem?_getD,
    List.getElem?_set_ne (Ne.symm h)]

theorem stopSimulation_noLog_frame (m : Machine α) :
    (stopSimulation false m).archives = m.archives ∧
    (stopSimulation false m).store = m.store ∧
    (stopSimulation false m).curHist = m.curHist ∧
    (stopSimulation false m).isReplaying = false := by
  unfold stopSimulation
  split
  · exact ⟨rfl, rfl, rfl, rfl⟩
  · rename_i hrep
    have hcond : ¬(false = true ∧
        0 < ({ m with isRunning := false } : Machine α).iteration) := by simp
    rw [if_neg hcond]
    refine ⟨rfl, rfl, rfl, ?_⟩
    simpa using hrep

theorem resetSimulation_frame (m : Machine α) :
    (resetSimulation m).archives = m.archives ∧
    (resetSimulation m).store = m.store ++ [[]] ∧
    (resetSimulation m).curHist = m.store.length ∧
    (resetSimulation m).alg = none ∧
    (resetSimulation m).isReplaying = false := by
  obtain ⟨h1, h2, h3, h4⟩ := stopSimulation_noLog_frame m
  unfold resetSimulation
  dsimp only
  refine ⟨h1, ?_, ?_, rfl, h4⟩
  · rw [h2]
  · rw [h2]

theorem loop0_frame (r : Rng α) (m : Machine α) :
    (loop r 0 m).archives = m.archives ∧
    (loop r 0 m).curHist = m.curHist ∧
    (∀ q, q ≠ m.curHist → (loop r 0 m).store.getD q [] = m.store.getD q []) := by
  unfold loop
  split
  · exact ⟨rfl, rfl, fun q hq => rfl⟩
  · rcases halg : m.alg with _ | a
    · simp [halg]
    · simp only [halg]
      rw [if_neg (by simp)]
      exact ⟨rfl, rfl, fun q hq => getD_set_ne _ _ _ _ _ hq⟩

theorem loopN0_frame (r : Rng α) (n : ℕ) (m : Machine α) :
    (loopN r 0 n m).archives = m.archives ∧
    (loopN r 0 n m).curHist = m.curHist ∧
    (∀ q, q ≠ m.curHist → (loopN r 0 n m).store.getD q [] = m.store.getD q []) := by
  induction n with
  | zero => exact ⟨rfl, rfl, fun q hq => rfl⟩
  | succ n ih =>
    have hstep : loopN r 0 (n + 1) m = loop r 0 (loopN r 0 n m) := by
      unfold loopN
      rw [Function.iterate_succ_apply']
    rw [hstep]
    obtain ⟨i1, i2, i3⟩ := ih
    obtain ⟨l1, l2, l3⟩ := loop0_frame r (loopN r 0 n m)
    refine ⟨l1.trans i1, l2.trans i2, fun q hq => ?_⟩
    rw [l3 q (by rw [i2]; exact hq)]
    exact i3 q hq

theorem startSim_after_reset (r : Rng α) (cfg : AlgCfg α) (m : Machine α) :
    (startSimulation r cfg 0 (resetSimulation m)).archives = m.archives ∧
    m.store.length ≤ (startSimulation r cfg 0 (resetSimulation m)).curHist ∧
    (∀ q, q < m.store.length →
      (startSimulation r cfg 0 (resetSimulation m)).store.getD q [] =
        m.store.getD q []) := by
  obtain ⟨r1, r2, r3, r4, r5⟩ := resetSimulation_frame m
  unfold startSimulation
  split
  · refine ⟨r1, ?_, fun q hq => ?_⟩
    · rw [r3]
    · rw [r2]
      exact List.getD_append _ _ _ _ hq
  · rw [r4]
    obtain ⟨rr1, rr2, rr3, rr4, rr5⟩ := resetSimulation_frame (resetSimulation m)
    rcases cfg with ⟨p, mr, cr, el⟩ | ⟨sw, w, cc1, cc2⟩
    all_goals {
      obtain ⟨f1, f2, f3⟩ := loop0_frame r _
      refine ⟨?_, ?_, fun q hq => ?_⟩
      · rw [f1]
        dsimp only
        rw [rr1, r1]
      · rw [f2]
        dsimp only
        rw [rr2, r2]
        simp
      · rw [f3 q (by
          dsimp only
          rw [rr2, r2]
          simp
          omega)]
        dsimp only
        rw [rr2, r2]
        rw [List.getD_append _ _ _ _ (by simp; omega)]
        rw [List.getD_append _ _ _ _ (by simp; omega)]
        exact List.getD_append _ _ _ _ hq
    }

unseal List.mergeSort List.merge in
/-- Claim C3 is false as stated: after archiving run 1 on Stop, the
archived entry references the live history array; pressing Run again on
the stopped run appends a further snapshot to that very array, so the
archived history grows from 2 to 3 snapshots after the entry was
created. -/
theorem C3_archive_mutated_on_resume :
    (archHist mC3b 1).length = 2 ∧ (archHist mC3c 1).length = 3 ∧
    archHist mC3c 1 ≠ archHist mC3b 1 := by
  refine ⟨by decide, by decide, ?_⟩
  intro hEq
  have hlen : (archHist mC3c 1).length = (archHist mC3b 1).length := by rw [hEq]
  rw [show (archHist mC3c 1).length = 3 from by decide,
      show (archHist mC3b 1).length = 2 from by decide] at hlen
  exact absurd hlen (by norm_num)

/-- Claim C3, amended: per-snapshot positions are value copies and a
reset rebinds the live history to a fresh array, so archived histories
survive a reset followed by a fresh run of any length untouched; the
archive however stores the history array by reference, so resuming the
SAME stopped run (Run with the optimizer still present) appends new
snapshots to the archived entry. -/
theorem C3_archive_immutable_after_reset (r : Rng α) (cfg : AlgCfg α) (n : ℕ)
    (m : Machine α) (id : ℕ) (e : ArchEntry)
    (harch : m.archives.get? (id - 1) = some e) (href : e.histRef < m.store.length) :
    (loopN r 0 n (startSimulation r cfg 0 (resetSimulation m))).archives.get? (id - 1) =
        some e ∧
    (loopN r 0 n (startSimulation r cfg 0 (resetSimulation m))).store.getD e.histRef [] =
        m.store.getD e.histRef [] := by
  obtain ⟨s1, s2, s3⟩ := startSim_after_reset r cfg m
  obtain ⟨l1, l2, l3⟩ := loopN0_frame r n (startSimulation r cfg 0 (resetSimulation m))
  constructor
  · rw [l1, s1, harch]
  · rw [l3 e.histRef (by omega)]
    exact s3 e.histRef href

unseal List.mergeSort List.merge in
theorem C3_archive_immutable_after_reset_witness :
    (loopN qRng 0 1 (startSimulation qRng gaCfgQ 0
        (resetSimulation mC3b))).archives.get? (1 - 1) =
      some ⟨2, "#e74c3c", "Sphere"⟩ ∧
    (loopN qRng 0 1 (startSimulation qRng gaCfgQ 0
        (resetSimulation mC3b))).store.getD (ArchEntry.histRef ⟨2, "#e74c3c", "Sphere"⟩) [] =
      mC3b.store.getD (ArchEntry.histRef ⟨2, "#e74c3c", "Sphere"⟩) [] :=
  C3_archive_immutable_after_reset qRng gaCfgQ 1 mC3b 1 ⟨2, "#e74c3c", "Sphere"⟩
    (by decide) (by decide)

/-! ## Claim C9: replay is a pure read of the archived history -/

theorem replayGo_spec (hist : List (List (α × α))) :
    ∀ (fuel : ℕ) (m : Machine α), m.isReplaying = true →
      hist.length - m.iteration < fuel →
      (replayGo hist fuel m).2 = hist.drop m.iteration ∧
      (replayGo hist fuel m).1.best = m.best ∧
      (replayGo hist fuel m).1.alg = m.alg ∧
      (replayGo hist fuel m).1.store = m.store ∧
      (replayGo hist fuel m).1.archives = m.archives ∧
      (replayGo hist fuel m).1.cur = m.cur := by
  intro fuel
  induction fuel with
  | zero =>
    intro m hrep hfuel
    omega
  | succ k ih =>
    intro m hrep hfuel
    rw [replayGo]
    rw [if_neg (by rw [hrep]; simp)]
    by_cases hit : m.iteration < hist.length
    · rw [if_pos hit]
      dsimp only
      have hrec := ih { m with iteration := m.iteration + 1 } hrep (by
        dsimp only
        omega)
      refine ⟨?_, hrec.2.1, hrec.2.2.1, hrec.2.2.2.1, hrec.2.2.2.2.1, hrec.2.2.2.2.2⟩
      rw [hrec.1]
      dsimp only
      rw [List.getD_eq_getElem hist [] hit]
      exact (List.drop_eq_getElem_cons hit).symm
    · rw [if_neg hit]
      refine ⟨?_, rfl, rfl, rfl, rfl, rfl⟩
      rw [List.drop_eq_nil_of_le (by omega)]

theorem replayGo_start (hist : List (List (α × α))) (m : Machine α)
    (hrep : m.isReplaying = true) (hit : m.iteration = 0) :
    (replayGo hist (hist.length + 1) m).2 = hist ∧
    (replayGo hist (hist.length + 1) m).1.best = m.best ∧
    (replayGo hist (hist.length + 1) m).1.alg = m.alg ∧
    (replayGo hist (hist.length + 1) m).1.store = m.store ∧
    (replayGo hist (hist.length + 1) m).1.archives = m.archives ∧
    (replayGo hist (hist.length + 1) m).1.cur = m.cur := by
  have h := replayGo_spec hist (hist.length + 1) m hrep (by omega)
  refine ⟨?_, h.2.1, h.2.2.1, h.2.2.2.1, h.2.2.2.2.1, h.2.2.2.2.2⟩
  rw [h.1, hit, List.drop_zero]

/-- Claim C9: starting a replay of an archived id emits exactly the
stored snapshot sequence in order, never steps the live optimizer
(whose state is left untouched), never changes the run-global best, and
consumes no randomness; the store and the archive are read, never
written. -/
theorem C9_replay_pure (cat : List (String × (α → α → α) × α × α)) (id : ℕ)
    (m : Machine α) (e : ArchEntry)
    (hrun : m.isRunning = false) (hrep : m.isReplaying = false)
    (harch : m.archives.get? (id - 1) = some e) :
    (startReplay cat id m).2 = m.store.getD e.histRef [] ∧
    (startReplay cat id m).1.best = m.best ∧
    (startReplay cat id m).1.alg = m.alg ∧
    (startReplay cat id m).1.store = m.store ∧
    (startReplay cat id m).1.archives = m.archives ∧
    (startReplay cat id m).1.cur = m.cur := by
  unfold startReplay
  rw [if_neg (by rw [hrun, hrep]; simp), harch]
  dsimp only
  split
  · rcases hfind : cat.find? (fun kv => kv.1 == e.functionName) with _ | kv
    · simp only [hfind]
      exact replayGo_start _ _ rfl rfl
    · simp only [hfind]
      exact replayGo_start _ _ rfl rfl
  · exact replayGo_start _ _ rfl rfl

unseal List.mergeSort List.merge in
theorem C9_replay_pure_witness :
    (startReplay ([] : List (String × (ℚ → ℚ → ℚ) × ℚ × ℚ)) 1 mC3b).2 =
      mC3b.store.getD (ArchEntry.histRef ⟨2, "#e74c3c", "Sphere"⟩) [] ∧
    (startReplay ([] : List (String × (ℚ → ℚ → ℚ) × ℚ × ℚ)) 1 mC3b).1.best = mC3b.best ∧
    (startReplay ([] : List (String × (ℚ → ℚ → ℚ) × ℚ × ℚ)) 1 mC3b).1.alg = mC3b.alg ∧
    (startReplay ([] : List (String × (ℚ → ℚ → ℚ) × ℚ × ℚ)) 1 mC3b).1.store = mC3b.store ∧
    (startReplay ([] : List (String × (ℚ → ℚ → ℚ) × ℚ × ℚ)) 1 mC3b).1.archives =
      mC3b.archives ∧
    (startReplay ([] : List (String × (ℚ → ℚ → ℚ) × ℚ × ℚ)) 1 mC3b).1.cur = mC3b.cur :=
  C9_replay_pure [] 1 mC3b ⟨2, "#e74c3c", "Sphere"⟩ (by decide) (by decide) (by decide)
